import Mathlib

/-!
Verification of the msgcat message-catalog library (Go) against its
natural-language specification.  The definitions below are a shallow
embedding of `msgcat.go` and `internal/plural/plural.go`:

* Go strings are Lean `String`s manipulated through their character
  lists; Go indexes bytes, the model indexes characters, which agree on
  the ASCII data (language tags, message keys, placeholder syntax) the
  library manipulates.
* Go maps are association lists (`SMap`) whose `insert` replaces any
  previous binding; lookup order matches Go map lookup.
* `float64` parameter values are carried as the decimal string produced
  by `strconv.FormatFloat(v, 'f', -1, 64)` (shortest round-trip form);
  the binary-to-decimal conversion itself is not modelled.
* Mutexes, goroutines and file I/O are erased; the observer channel is
  an explicit queue state, and the YAML reader's result is passed in as
  an `Except` value.
-/

namespace Msgcat

/-- Decimal digit character, mirroring the digits `strconv` emits. -/
def digitChar (n : Nat) : Char := Char.ofNat (48 + n % 10)

/-- Fuelled decimal rendering of a `Nat` (mirrors `strconv.Itoa` on
non-negative input). -/
def natDigitsAux : Nat → Nat → List Char
  | 0, _ => []
  | fuel + 1, n =>
    if n < 10 then [digitChar n]
    else natDigitsAux fuel (n / 10) ++ [digitChar (n % 10)]

/-- Decimal string of a `Nat`. -/
def natToDecStr (n : Nat) : String := (natDigitsAux (n + 1) n).asString

/-- Decimal string of an `Int`, mirroring `strconv.Itoa` /
`strconv.FormatInt`. -/
def intToDecStr (i : Int) : String :=
  if i < 0 then "-" ++ natToDecStr i.natAbs else natToDecStr i.natAbs

/-- ASCII whitespace trimmed by `strings.TrimSpace` (the library's tags
and stat keys are ASCII; the Unicode cases are not modelled). -/
def isGoSpace (c : Char) : Bool :=
  c = ' ' || c = '\t' || c = '\n' || c = '\x0b' || c = '\x0c' || c = '\r'

/-- `strings.TrimSpace` on ASCII data. -/
def goTrim (s : String) : String :=
  (((s.data.dropWhile isGoSpace).reverse.dropWhile isGoSpace).reverse).asString

/-- ASCII lower-casing of one character (`strings.ToLower` on ASCII). -/
def asciiLowerChar (c : Char) : Char :=
  if 'A' ≤ c ∧ c ≤ 'Z' then Char.ofNat (c.toNat + 32) else c

/-- `strings.ToLower` on ASCII data. -/
def asciiLower (s : String) : String := (s.data.map asciiLowerChar).asString

/-- `strings.ReplaceAll s "_" "-"` (single-character pattern). -/
def replaceUnderscores (s : String) : String :=
  (s.data.map (fun c => if c = '_' then '-' else c)).asString

/-- `strings.HasPrefix` on character lists. -/
def hasPrefixList : List Char → List Char → Bool
  | [], _ => true
  | _ :: _, [] => false
  | p :: ps, c :: cs => p = c && hasPrefixList ps cs

/-- `strings.Contains s sub` (substring occurrence test). -/
def containsSubList (sub : List Char) : List Char → Bool
  | [] => hasPrefixList sub []
  | c :: cs => hasPrefixList sub (c :: cs) || containsSubList sub cs

/-- Association list keyed by strings; the model of a Go
`map[string]α`.  `smInsert` replaces any previous binding for the key. -/
def SMap (α : Type) : Type := List (String × α)

instance {α : Type} [DecidableEq α] : DecidableEq (SMap α) :=
  inferInstanceAs (DecidableEq (List (String × α)))

instance {α : Type} : Membership (String × α) (SMap α) :=
  inferInstanceAs (Membership (String × α) (List (String × α)))

/-- Lookup, first binding wins (Go maps have unique keys). -/
def smLookup {α : Type} : SMap α → String → Option α
  | [], _ => none
  | (k, v) :: m, key => if k = key then some v else smLookup m key

/-- Insert/replace a binding (`m[k] = v` in Go). -/
def smInsert {α : Type} (m : SMap α) (k : String) (v : α) : SMap α :=
  (k, v) :: m.filter (fun p => !(p.1 = k : Bool))

/-- Number of keys (`len(m)` in Go; exact on duplicate-free maps). -/
def smSize {α : Type} (m : SMap α) : Nat := m.length

/-- Key list is duplicate free — holds for every map the library builds. -/
def smNoDup {α : Type} (m : SMap α) : Prop := (m.map Prod.fst).Nodup

/-- A Go parameter value (`interface{}` entries of `Params`).  All
signed integer widths collapse to `int`, unsigned ones to `uint`;
`float` carries the `strconv.FormatFloat(v,'f',-1,64)` rendering;
`timeVal` carries a `time.Time`'s zero-padded month/day/year fields and
its RFC3339 rendering; `other` is a value of any other dynamic type,
carried as its `fmt.Sprintf("%v")` form. -/
inductive GoValue : Type
  | str (s : String)
  | int (i : Int)
  | uint (n : Nat)
  | float (dec : String)
  | boolean (b : Bool)
  | timeVal (mm dd yyyy rfc : String)
  | other (s : String)
deriving DecidableEq

/-- `toString` from msgcat.go: the simple-placeholder rendering of a
parameter value. -/
def goToString : GoValue → String
  | .str s => s
  | .int i => intToDecStr i
  | .uint n => natToDecStr n
  | .float dec => dec
  | .boolean b => if b then "true" else "false"
  | .timeVal _ _ _ rfc => rfc
  | .other s => s

/-- `isPluralOne`: `some isOne` when the value has numeric type, `none`
otherwise.  A float equals 1 exactly when its shortest decimal form is
`"1"`. -/
def isPluralOne : GoValue → Option Bool
  | .int i => some (i = 1)
  | .uint n => some (n = 1)
  | .float dec => some (dec = "1")
  | _ => none

/-- Two's-complement narrowing of Go's `int(u)` on a `uint64`. -/
def wrap64 (n : Nat) : Int :=
  let m : Nat := n % 2 ^ 64
  if m < 2 ^ 63 then (m : Int) else (m : Int) - 2 ^ 64

/-- Leading decimal integer of a digit list (used to truncate a float's
decimal form, as Go's `int(f)` conversion truncates toward zero). -/
def digitsToNat : List Char → Nat → Nat
  | [], acc => acc
  | c :: cs, acc =>
    if '0' ≤ c ∧ c ≤ '9' then digitsToNat cs (acc * 10 + (c.toNat - 48)) else acc

/-- Integer part of a shortest-form decimal string, sign included. -/
def decTruncInt (dec : String) : Int :=
  match dec.data with
  | '-' :: cs => -Int.ofNat (digitsToNat (cs.takeWhile (fun c => !(c = '.' : Bool))) 0)
  | cs => Int.ofNat (digitsToNat (cs.takeWhile (fun c => !(c = '.' : Bool))) 0)

/-- `pluralCountFromParam`: the `int` used for CLDR form selection. -/
def pluralCountFromParam : GoValue → Option Int
  | .int i => some i
  | .uint n => some (wrap64 n)
  | .float dec => some (decTruncInt dec)
  | _ => none

/-- `normalizeLangTag`: lower-case, trim, `_` → `-`. -/
def normalizeLangTag (lang : String) : String :=
  replaceUnderscores (goTrim (asciiLower lang))

/-- `baseLangTag`: `lang[:idx]` when the first `-` sits at index
`idx > 0`, otherwise the whole tag.  The prefix before the first `-` is
`takeWhile (· ≠ '-')`; it is empty exactly when the tag starts with `-`
(index 0), and the whole string when there is no `-`: in both of those
cases Go returns the tag unchanged. -/
def baseLangTag (lang : String) : String :=
  let pre := lang.data.takeWhile (fun c => !(c = '-' : Bool))
  if pre.length = 0 ∨ pre.length = lang.data.length then lang else pre.asString

/-- `appendLangIfMissing`: skip empty and already-seen tags (the Go
`seen` set always contains exactly the accumulated list's elements). -/
def appendLangIfMissing (target : List String) (lang : String) : List String :=
  if lang = "" ∨ lang ∈ target then target else target ++ [lang]

/-- `groupDigits`'s loop: emit `sep` plus three characters at a time
(the caller always passes a tail whose length is a multiple of three). -/
def groupTail (sep : List Char) : List Char → List Char
  | a :: b :: c :: rest => sep ++ [a, b, c] ++ groupTail sep rest
  | rest => rest

/-- `groupDigits`: insert `sep` every three digits from the right. -/
def groupDigits (input : String) (sep : String) : String :=
  if input.data.length ≤ 3 then input
  else
    let start := input.data.length % 3
    let start := if start = 0 then 3 else start
    (input.data.take start ++ groupTail sep.data (input.data.drop start)).asString

/-- The base tags whose number/date formatting swaps the separators. -/
def swappedSepLang (lang : String) : Bool :=
  baseLangTag lang = "es" || baseLangTag lang = "pt" || baseLangTag lang = "fr" ||
  baseLangTag lang = "de" || baseLangTag lang = "it"

/-- Decimal separator used by `formatNumberByLang` for `lang`. -/
def decimalSeparator (lang : String) : String :=
  if swappedSepLang lang then "," else "."

/-- Grouping (thousand) separator used by `formatNumberByLang`. -/
def groupSeparator (lang : String) : String :=
  if swappedSepLang lang then "." else ","

/-- `strings.SplitN s "." 2`: split at the first `.`, if any. -/
def splitAtDot (s : String) : String × Option String :=
  let pre := s.data.takeWhile (fun c => !(c = '.' : Bool))
  if pre.length = s.data.length then (s, none)
  else (pre.asString, some (s.data.drop (pre.length + 1)).asString)

/-- The `formatFloat` closure of `formatNumberByLang`, applied to the
decimal rendering `strconv.FormatFloat(number, 'f', -1, 64)`. -/
def formatFloatStr (grpSep decSep : String) (s : String) : String :=
  let (intPart, fracOpt) := splitAtDot s
  let sign := if hasPrefixList "-".data intPart.data then "-" else ""
  let ipart := if hasPrefixList "-".data intPart.data then (intPart.data.drop 1).asString else intPart
  let ip := sign ++ groupDigits ipart grpSep
  match fracOpt with
  | none => ip
  | some f => ip ++ decSep ++ f

/-- `formatNumberByLang`: `some` formatted text for numeric values,
`none` for non-numeric ones. -/
def formatNumberByLang (lang : String) (v : GoValue) : Option String :=
  let grpSep := groupSeparator lang
  match v with
  | .int i =>
    let s := intToDecStr i
    if hasPrefixList "-".data s.data then
      some ("-" ++ groupDigits (s.data.drop 1).asString grpSep)
    else some (groupDigits s grpSep)
  | .uint n => some (groupDigits (natToDecStr n) grpSep)
  | .float dec => some (formatFloatStr grpSep (decimalSeparator lang) dec)
  | _ => none

/-- `formatDateByLang`: `MM/DD/YYYY`, or `DD/MM/YYYY` for the swapped
locales; `none` for non-time values. -/
def formatDateByLang (lang : String) (v : GoValue) : Option String :=
  match v with
  | .timeVal mm dd yyyy _ =>
    if swappedSepLang lang then some (dd ++ "/" ++ mm ++ "/" ++ yyyy)
    else some (mm ++ "/" ++ dd ++ "/" ++ yyyy)
  | _ => none

/-- Base tag as computed inside `plural.Form`: lower-case, trim, cut at
the first `-` (when at index > 0) and then at the first `_`. -/
def pluralBaseTag (lang : String) : String :=
  let base := goTrim (asciiLower lang)
  let base := baseLangTag base
  let pre := base.data.takeWhile (fun c => !(c = '_' : Bool))
  if pre.length = 0 ∨ pre.length = base.data.length then base else pre.asString

/-- `plural.formOneOther`. -/
def formOneOther (n : Nat) : String := if n = 1 then "one" else "other"

/-- `plural.formArabic`. -/
def formArabic (n : Nat) : String :=
  if n = 0 then "zero"
  else if n = 1 then "one"
  else if n = 2 then "two"
  else if 3 ≤ n ∧ n ≤ 10 then "few"
  else if 11 ≤ n ∧ n ≤ 99 then "many"
  else "other"

/-- `plural.formRussian`. -/
def formRussian (n : Nat) : String :=
  let n10 := n % 10
  let n100 := n % 100
  if n10 = 1 ∧ n100 ≠ 11 then "one"
  else if 2 ≤ n10 ∧ n10 ≤ 4 ∧ (n100 < 12 ∨ n100 > 14) then "few"
  else if n10 = 0 ∨ (5 ≤ n10 ∧ n10 ≤ 9) ∨ (11 ≤ n100 ∧ n100 ≤ 14) then "many"
  else "other"

/-- `plural.formPolish`. -/
def formPolish (n : Nat) : String :=
  if n = 1 then "one"
  else
    let n10 := n % 10
    let n100 := n % 100
    if 2 ≤ n10 ∧ n10 ≤ 4 ∧ (n100 < 12 ∨ n100 > 14) then "few"
    else if n10 = 0 ∨ (5 ≤ n10 ∧ n10 ≤ 9) ∨ (12 ≤ n100 ∧ n100 ≤ 14) then "many"
    else "other"

/-- `plural.formWelsh`. -/
def formWelsh (n : Nat) : String :=
  if n = 0 then "zero"
  else if n = 1 then "one"
  else if n = 2 then "two"
  else if n = 3 then "few"
  else if n = 6 then "many"
  else "other"

/-- `plural.formHebrew`. -/
def formHebrew (n : Nat) : String :=
  if n = 1 then "one"
  else if n = 2 then "two"
  else if 3 ≤ n ∧ n ≤ 10 then "few"
  else if 11 ≤ n ∧ n ≤ 99 then "many"
  else "other"

/-- `plural.Form`: the CLDR plural form for a language tag and count.
Negative counts use their absolute value (Go negation of `MinInt64` is
not modelled; `Int` is unbounded here). -/
def pluralForm (lang : String) (count : Int) : String :=
  let base := pluralBaseTag lang
  let n := count.natAbs
  if base = "ar" then formArabic n
  else if base ∈ ["ru", "uk", "be", "sr", "hr", "bs", "sh"] then formRussian n
  else if base = "pl" then formPolish n
  else if base ∈ ["cy", "br", "ga", "gd", "gv", "kw", "mt", "sm", "ak"] then formWelsh n
  else if base ∈ ["he", "iw"] then formHebrew n
  else if base ∈ ["en", "es", "fr", "de", "it", "pt", "nl", "no", "sv", "da", "fi",
      "tr", "el", "ja", "ko", "zh", "th", "vi", "id", "hi"] then formOneOther n
  else "other"

/-- `selectCLDRForm`: pick the form's template, falling back to
`"other"`, then to `defaultTpl`. -/
def selectCLDRForm (forms : SMap String) (lang : String) (count : Int)
    (defaultTpl : String) : String :=
  if forms.isEmpty then defaultTpl
  else
    let form := pluralForm lang count
    match smLookup forms form with
    | some tpl => if tpl ≠ "" then tpl else fallbackOther forms defaultTpl
    | none => fallbackOther forms defaultTpl
where
  /-- The `other`-then-default fallback of `selectCLDRForm`. -/
  fallbackOther (forms : SMap String) (defaultTpl : String) : String :=
    match smLookup forms "other" with
    | some tpl => if tpl ≠ "" then tpl else defaultTpl
    | none => defaultTpl

/-- First character class of a placeholder name (`[a-zA-Z_]`). -/
def isNameStartChar (c : Char) : Bool :=
  ('a' ≤ c && c ≤ 'z') || ('A' ≤ c && c ≤ 'Z') || c = '_'

/-- Remaining character class of a placeholder name (`[a-zA-Z0-9_.]`). -/
def isNameTailChar (c : Char) : Bool :=
  isNameStartChar c || ('0' ≤ c && c ≤ '9') || c = '.'

/-- A string matching `[a-zA-Z_][a-zA-Z0-9_.]*`. -/
def validParamName (s : String) : Bool :=
  match s.data with
  | [] => false
  | c :: cs => isNameStartChar c && cs.all isNameTailChar

/-- The literal `{{` opening a placeholder. -/
def openBraces : List Char := ['{', '{']

/-- The literal `}}` closing a placeholder. -/
def closeBraces : List Char := ['}', '}']

/-- The literal `plural:` after the opening braces. -/
def pluralTag : List Char := "plural:".data

/-- The literal `num:` after the opening braces. -/
def numTag : List Char := "num:".data

/-- The literal `date:` after the opening braces. -/
def dateTag : List Char := "date:".data

/-- Match a literal prefix, returning the remainder. -/
def matchLit : List Char → List Char → Option (List Char)
  | [], cs => some cs
  | _ :: _, [] => none
  | p :: ps, c :: cs => if p = c then matchLit ps cs else none

/-- Greedy `[a-zA-Z_][a-zA-Z0-9_.]*` (the regexes' name group; the
following literal is outside the class, so greediness is exact). -/
def takeName : List Char → Option (List Char × List Char)
  | [] => none
  | c :: cs =>
    if isNameStartChar c then
      some (c :: cs.takeWhile isNameTailChar, cs.dropWhile isNameTailChar)
    else none

/-- Character admitted by the regex class `[^|}]` (first plural branch). -/
def isBranchAChar (c : Char) : Bool := !(c = '|' || c = '}')

/-- Character admitted by the regex class `[^}]` (plural remainder). -/
def isBranchBChar (c : Char) : Bool := !(c = '}')

/-- Match of `pluralPlaceholderRegex` anchored at the head:
`\{\{plural:([a-zA-Z_][a-zA-Z0-9_.]*)\|([^|}]*)\|([^}]*)\}\}`.  All
quantified classes exclude the literal that follows them, so the greedy
match is the unique one (RE2 leftmost semantics). -/
def tryPlural (cs : List Char) : Option ((String × String × String) × List Char) := do
  let r1 ← matchLit openBraces cs
  let r2 ← matchLit pluralTag r1
  let (name, r3) ← takeName r2
  let r4 ← matchLit ['|'] r3
  let branchA := r4.takeWhile isBranchAChar
  let r5 ← matchLit ['|'] (r4.dropWhile isBranchAChar)
  let branchB := r5.takeWhile isBranchBChar
  let r6 ← matchLit closeBraces (r5.dropWhile isBranchBChar)
  some ((name.asString, branchA.asString, branchB.asString), r6)

/-- Match of `numberPlaceholderRegex` anchored at the head. -/
def tryNum (cs : List Char) : Option (String × List Char) := do
  let r1 ← matchLit openBraces cs
  let r2 ← matchLit numTag r1
  let (name, r3) ← takeName r2
  let r4 ← matchLit closeBraces r3
  some (name.asString, r4)

/-- Match of `datePlaceholderRegex` anchored at the head. -/
def tryDate (cs : List Char) : Option (String × List Char) := do
  let r1 ← matchLit openBraces cs
  let r2 ← matchLit dateTag r1
  let (name, r3) ← takeName r2
  let r4 ← matchLit closeBraces r3
  some (name.asString, r4)

/-- Match of `simplePlaceholderRegex` anchored at the head. -/
def trySimple (cs : List Char) : Option (String × List Char) := do
  let r1 ← matchLit openBraces cs
  let (name, r2) ← takeName r1
  let r3 ← matchLit closeBraces r2
  some (name.asString, r3)

/-- One `ReplaceAllStringFunc` pass: find successive non-overlapping
leftmost matches, apply the replacement, collect the template issues it
records.  Fuel is the remaining input length; `scanRun` supplies it. -/
def scanAux {π : Type} (tryM : List Char → Option (π × List Char))
    (repl : π → List Char × List String) : Nat → List Char → List Char × List String
  | 0, cs => (cs, [])
  | _ + 1, [] => ([], [])
  | fuel + 1, c :: cs =>
    match tryM (c :: cs) with
    | some (parts, rest) =>
      let r := repl parts
      let t := scanAux tryM repl fuel rest
      (r.1 ++ t.1, r.2 ++ t.2)
    | none =>
      let t := scanAux tryM repl fuel cs
      (c :: t.1, t.2)

/-- `ReplaceAllStringFunc` with adequate fuel. -/
def scanRun {π : Type} (tryM : List Char → Option (π × List Char))
    (repl : π → List Char × List String) (cs : List Char) : List Char × List String :=
  scanAux tryM repl cs.length cs

/-- The literal `<missing:NAME>` of strict mode. -/
def missingText (name : String) : List Char :=
  '<' :: "missing:".data ++ name.data ++ ['>']

/-- `replaceMissing` from `renderTemplate`: record the issue, substitute
`<missing:NAME>` in strict mode, keep the token otherwise. -/
def replaceMissing (strict : Bool) (issue : String) (token : List Char)
    (name : String) : List Char × List String :=
  (if strict then missingText name else token, [issue])

/-- Original text of a plural token, rebuilt from its groups. -/
def pluralToken (name a b : String) : List Char :=
  openBraces ++ pluralTag ++ name.data ++ '|' :: a.data ++ '|' :: b.data ++ closeBraces

/-- Replacement for one plural placeholder. -/
def pluralRepl (strict : Bool) (params : SMap GoValue)
    (p : String × String × String) : List Char × List String :=
  let (name, a, b) := p
  let token := pluralToken name a b
  match smLookup params name with
  | none => replaceMissing strict ("plural_missing_param_" ++ name) token name
  | some v =>
    match isPluralOne v with
    | none => (token, ["plural_invalid_param_" ++ name])
    | some true => (a.data, [])
    | some false => (b.data, [])

/-- Original text of a `num` token. -/
def numToken (name : String) : List Char :=
  openBraces ++ numTag ++ name.data ++ closeBraces

/-- Replacement for one number placeholder. -/
def numRepl (lang : String) (strict : Bool) (params : SMap GoValue)
    (name : String) : List Char × List String :=
  let token := numToken name
  match smLookup params name with
  | none => replaceMissing strict ("number_missing_param_" ++ name) token name
  | some v =>
    match formatNumberByLang lang v with
    | none => (token, ["number_invalid_param_" ++ name])
    | some s => (s.data, [])

/-- Original text of a `date` token. -/
def dateToken (name : String) : List Char :=
  openBraces ++ dateTag ++ name.data ++ closeBraces

/-- Replacement for one date placeholder. -/
def dateRepl (lang : String) (strict : Bool) (params : SMap GoValue)
    (name : String) : List Char × List String :=
  let token := dateToken name
  match smLookup params name with
  | none => replaceMissing strict ("date_missing_param_" ++ name) token name
  | some v =>
    match formatDateByLang lang v with
    | none => (token, ["date_invalid_param_" ++ name])
    | some s => (s.data, [])

/-- Original text of a simple token. -/
def simpleToken (name : String) : List Char :=
  openBraces ++ name.data ++ closeBraces

/-- Replacement for one simple placeholder. -/
def simpleRepl (strict : Bool) (params : SMap GoValue)
    (name : String) : List Char × List String :=
  match smLookup params name with
  | none => replaceMissing strict ("simple_missing_param_" ++ name) (simpleToken name) name
  | some v => ((goToString v).data, [])

/-- `renderTemplate`'s pure core: the rendered text and the template
issues recorded, in order (plural pass, then number, date, simple).
The issue tags are those passed to `onTemplateIssue`; the caller folds
them into the stats/observer state. -/
def renderTemplateCore (lang : String) (strict : Bool) (template : String)
    (params : SMap GoValue) : String × List String :=
  if !(containsSubList openBraces template.data) then (template, [])
  else
    let p1 := scanRun tryPlural (pluralRepl strict params) template.data
    let p2 := scanRun tryNum (numRepl lang strict params) p1.1
    let p3 := scanRun tryDate (dateRepl lang strict params) p2.1
    let p4 := scanRun trySimple (simpleRepl strict params) p3.1
    (p4.1.asString, p1.2 ++ p2.2 ++ p3.2 ++ p4.2)

/-- The overflow bucket key (`overflowStatKey`). -/
def overflowStatKey : String := "__overflow__"

/-- `sanitizeStatKey`: trim, map empty to `"unknown"`, truncate to 120
(bytes in Go, characters here; stat keys are ASCII). -/
def sanitizeStatKey (key : String) : String :=
  let key := goTrim key
  if key = "" then "unknown"
  else if 120 < key.data.length then (key.data.take 120).asString
  else key

/-- `catalogStats.increment` on one counter map (the mutex and the
nil-map guard are erased; every map the constructor builds is non-nil).
`maxKeys` is `0 <` exactly when Go's `s.maxKeys > 0` holds. -/
def statIncrement (maxKeys : Nat) (target : SMap Nat) (key : String) : SMap Nat :=
  let key := sanitizeStatKey key
  let key :=
    if 0 < maxKeys then
      if (smLookup target key).isSome then key
      else if (smLookup target overflowStatKey).isSome then
        if maxKeys ≤ smSize target then overflowStatKey else key
      else if maxKeys - 1 ≤ smSize target then overflowStatKey
      else key
    else key
  smInsert target key ((smLookup target key).getD 0 + 1)

/-- The five counter maps plus the reload clock value (`lastReloadAt`
is the injected `NowFn` reading; `0` models the zero `time.Time`). -/
structure CatalogStats : Type where
  languageFallbacks : SMap Nat
  missingLanguages : SMap Nat
  missingMessages : SMap Nat
  templateIssues : SMap Nat
  droppedEvents : SMap Nat
  maxKeys : Nat
  lastReloadAt : Nat
deriving DecidableEq

/-- The observer channel as the producer sees it: absent (`nil` field),
running with a bounded buffer holding `pending` events, or closed but
not yet cleared (only a publish racing `Close` observes this). -/
inductive ObsCh : Type
  | chNone
  | running (pending cap : Nat)
  | closedCh
deriving DecidableEq

/-- One catalog entry (`RawMessage`). -/
structure RawMessageL : Type where
  longTpl : String
  shortTpl : String
  code : String
  shortForms : SMap String
  longForms : SMap String
  pluralParam : String
  key : String
deriving DecidableEq

/-- A language's messages (`Messages`; the opaque `group` tag is not
modelled — the runtime never reads it). -/
structure MessagesL : Type where
  defaultEntry : RawMessageL
  set : SMap RawMessageL
deriving DecidableEq

/-- The configuration fields the runtime reads.  `observerConfigured`
is `cfg.Observer != nil`. -/
structure ConfigL : Type where
  defaultLanguage : String
  fallbackLanguages : List String
  strictTemplates : Bool
  observerConfigured : Bool
  statsMaxKeys : Nat
deriving DecidableEq

/-- `DefaultMessageCatalog`'s state: the primary and runtime layers,
the stats registry and the observer channel. -/
structure CatalogState : Type where
  messages : SMap MessagesL
  runtimeMessages : SMap (SMap RawMessageL)
  cfg : ConfigL
  stats : CatalogStats
  observerCh : ObsCh
deriving DecidableEq

/-- `publishObserverEvent`, producer side: no-op without a sink or a
channel; a send on a closed channel panics, is recovered, and counts
under `observer_closed`; a full buffer drops under
`observer_queue_full`; otherwise the event is buffered.  (The payload
only reaches the sink, so it is not part of the state.) -/
def publishObserverEvent (st : CatalogState) : CatalogState :=
  if !st.cfg.observerConfigured then st
  else
    match st.observerCh with
    | .chNone => st
    | .closedCh =>
      { st with stats := { st.stats with
          droppedEvents := statIncrement st.stats.maxKeys st.stats.droppedEvents
            "observer_closed" } }
    | .running pending cap =>
      if pending < cap then { st with observerCh := .running (pending + 1) cap }
      else
        { st with stats := { st.stats with
            droppedEvents := statIncrement st.stats.maxKeys st.stats.droppedEvents
              "observer_queue_full" } }

/-- `stopObserverWorker` as `Close` runs it: close the channel, join
the consumer, clear both fields.  After it returns the producer sees a
nil channel. -/
def stopObserverWorker (st : CatalogState) : CatalogState :=
  match st.observerCh with
  | .chNone => st
  | _ => { st with observerCh := .chNone }

/-- `Close`. -/
def closeCatalog (st : CatalogState) : CatalogState := stopObserverWorker st

/-- `onLanguageFallback`: count `requested->resolved`, publish. -/
def onLanguageFallback (st : CatalogState) (requested resolved : String) : CatalogState :=
  let st := { st with stats := { st.stats with
      languageFallbacks := statIncrement st.stats.maxKeys st.stats.languageFallbacks
        (requested ++ "->" ++ resolved) } }
  publishObserverEvent st

/-- `onLanguageMissing`: count the normalized tag, publish. -/
def onLanguageMissing (st : CatalogState) (lang : String) : CatalogState :=
  let st := { st with stats := { st.stats with
      missingLanguages := statIncrement st.stats.maxKeys st.stats.missingLanguages
        (normalizeLangTag lang) } }
  publishObserverEvent st

/-- `onMessageMissing`: count `lang:key`, publish. -/
def onMessageMissing (st : CatalogState) (lang msgKey : String) : CatalogState :=
  let st := { st with stats := { st.stats with
      missingMessages := statIncrement st.stats.maxKeys st.stats.missingMessages
        (lang ++ ":" ++ msgKey) } }
  publishObserverEvent st

/-- `onTemplateIssue`: count `lang:key:issue`, publish. -/
def onTemplateIssue (st : CatalogState) (lang msgKey issue : String) : CatalogState :=
  let st := { st with stats := { st.stats with
      templateIssues := statIncrement st.stats.maxKeys st.stats.templateIssues
        (lang ++ ":" ++ msgKey ++ ":" ++ issue) } }
  publishObserverEvent st

/-- The `renderTemplate` method: render and record each issue through
`onTemplateIssue` in emission order. -/
def renderTemplateSt (st : CatalogState) (lang msgKey template : String)
    (params : SMap GoValue) : CatalogState × String :=
  let r := renderTemplateCore lang st.cfg.strictTemplates template params
  (r.2.foldl (fun s issue => onTemplateIssue s lang msgKey issue) st, r.1)

/-- The sentinel code `msgcat.missing_message`. -/
def CodeMissingMessage : String := "msgcat.missing_message"

/-- The sentinel code `msgcat.missing_language`. -/
def CodeMissingLanguage : String := "msgcat.missing_language"

/-- `MessageCatalogNotFound` formatted with the requested tag and a
suffix (note the space Go's `%s` leaves before an empty suffix). -/
def messageCatalogNotFound (lang suffix : String) : String :=
  "Unexpected error in message catalog, language [" ++ lang ++ "] not found. " ++ suffix

/-- The resolved `Message` value. -/
structure Message : Type where
  longText : String
  shortText : String
  code : String
  key : String
deriving DecidableEq

/-- `resolveRequestedLang`.  The context is modelled as the optional
language value found under the configured key (Go consults the typed
key and its string form; both yield the same value here).  `none`
covers both a nil context and an absent value. -/
def resolveRequestedLang (cfg : ConfigL) (ctx : Option String) : String :=
  let lang := normalizeLangTag cfg.defaultLanguage
  let lang := if lang = "" then "en" else lang
  match ctx with
  | none => lang
  | some v => normalizeLangTag v

/-- `resolveLanguage`: candidate chain and first hit.  Returns
(resolved tag, language found, fallback used). -/
def resolveLanguage (st : CatalogState) (requestedLang : String) :
    String × Bool × Bool :=
  let n := normalizeLangTag requestedLang
  let n := if n = "" then "en" else n
  let candidates :=
    appendLangIfMissing
      (appendLangIfMissing
        ((st.cfg.fallbackLanguages.map normalizeLangTag).foldl appendLangIfMissing
          (appendLangIfMissing (appendLangIfMissing [] n) (baseLangTag n)))
        (normalizeLangTag st.cfg.defaultLanguage))
      "en"
  match candidates.find? (fun c => (smLookup st.messages c).isSome) with
  | some c => (c, true, decide (c ≠ n))
  | none => (n, false, false)

/-- The `Message` built on the missing-language paths. -/
def missingLanguageMessage (requestedLang msgKey : String) : Message :=
  { shortText := messageCatalogNotFound requestedLang ""
    longText := messageCatalogNotFound requestedLang "Please, contact support."
    code := CodeMissingLanguage
    key := msgKey }

/-- `GetMessageWithCtx`: the full request path, returning the updated
state (stats and observer queue) and the resolved message. -/
def getMessageWithCtx (st : CatalogState) (ctx : Option String) (msgKey : String)
    (params : SMap GoValue) : CatalogState × Message :=
  let requestedLang := resolveRequestedLang st.cfg ctx
  let r := resolveLanguage st requestedLang
  let resolvedLang := r.1
  if !r.2.1 then
    (onLanguageMissing st requestedLang, missingLanguageMessage requestedLang msgKey)
  else
    let st := if r.2.2 then onLanguageFallback st requestedLang resolvedLang else st
    match smLookup st.messages resolvedLang with
    | none =>
      (onLanguageMissing st requestedLang, missingLanguageMessage requestedLang msgKey)
    | some langMsgSet =>
      let found := smLookup langMsgSet.set msgKey
      let shortMessage :=
        match found with
        | none => langMsgSet.defaultEntry.shortTpl
        | some msg =>
          if msg.shortForms.isEmpty ∧ msg.longForms.isEmpty then msg.shortTpl
          else
            let pluralParam := if msg.pluralParam = "" then "count" else msg.pluralParam
            match (smLookup params pluralParam).bind pluralCountFromParam with
            | some count => selectCLDRForm msg.shortForms resolvedLang count msg.shortTpl
            | none => msg.shortTpl
      let longMessage :=
        match found with
        | none => langMsgSet.defaultEntry.longTpl
        | some msg =>
          if msg.shortForms.isEmpty ∧ msg.longForms.isEmpty then msg.longTpl
          else
            let pluralParam := if msg.pluralParam = "" then "count" else msg.pluralParam
            match (smLookup params pluralParam).bind pluralCountFromParam with
            | some count => selectCLDRForm msg.longForms resolvedLang count msg.longTpl
            | none => msg.longTpl
      let code := match found with | none => CodeMissingMessage | some msg => msg.code
      let st := match found with
        | none => onMessageMissing st resolvedLang msgKey
        | some _ => st
      let p1 := renderTemplateSt st resolvedLang msgKey shortMessage params
      let p2 := renderTemplateSt p1.1 resolvedLang msgKey longMessage params
      (p2.1, { longText := p2.2, shortText := p1.2, code := code, key := msgKey })

/-- The reserved runtime key (`RuntimeKeyPrefix`, `"sys."`). -/
def runtimeKeyPfx : String := "sys."

/-- `messageKeyRegex`: `^[a-zA-Z0-9_.-]+$`. -/
def validMessageKey (key : String) : Bool :=
  !key.data.isEmpty &&
  key.data.all (fun c =>
    ('a' ≤ c && c ≤ 'z') || ('A' ≤ c && c ≤ 'Z') || ('0' ≤ c && c ≤ '9') ||
    c = '_' || c = '.' || c = '-')

/-- The rejection cases of `LoadMessages`, in check order. -/
inductive LoadErr : Type
  | langRequired
  | emptyKey
  | badKeyPfx (key : String)
  | badKeyFormat (key : String)
  | duplicateKey (key lang : String)
deriving DecidableEq

/-- The per-entry validation of the `LoadMessages` loop, against the
language's current primary key set. -/
def entryError (set : SMap RawMessageL) (lang : String) (m : RawMessageL) :
    Option LoadErr :=
  if m.key = "" then some .emptyKey
  else if !hasPrefixList runtimeKeyPfx.data m.key.data then some (.badKeyPfx m.key)
  else if !validMessageKey m.key then some (.badKeyFormat m.key)
  else if (smLookup set m.key).isSome then some (.duplicateKey m.key lang)
  else none

/-- `normalizedMessage`: the struct literal copies every field except
`Key`, which is zeroed. -/
def normalizeEntry (m : RawMessageL) : RawMessageL := { m with key := "" }

/-- An empty `Messages` value (`Messages{Set: map[string]RawMessage{}}`;
the zero `Default` entry has empty templates and code). -/
def emptyMessages : MessagesL :=
  { defaultEntry :=
      { longTpl := "", shortTpl := "", code := "", shortForms := [], longForms := [],
        pluralParam := "", key := "" }
    set := [] }

/-- The primary key set currently stored for `lang` (its `Set` map;
every stored `Messages` has a non-nil `Set`). -/
def currentSet (st : CatalogState) (lang : String) : SMap RawMessageL :=
  ((smLookup st.messages lang).getD emptyMessages).set

/-- Write one accepted entry into both layers (through the shared `Set`
map, so the write is visible even if the loop later errors out). -/
def insertBoth (st : CatalogState) (lang : String) (m : RawMessageL) : CatalogState :=
  let msgs := (smLookup st.messages lang).getD emptyMessages
  let rset := (smLookup st.runtimeMessages lang).getD []
  { st with
    messages := smInsert st.messages lang
      { msgs with set := smInsert msgs.set m.key (normalizeEntry m) }
    runtimeMessages := smInsert st.runtimeMessages lang
      (smInsert rset m.key (normalizeEntry m)) }

/-- The `LoadMessages` entry loop: stop at the first rejected entry,
keeping every earlier write. -/
def loadLoop (st : CatalogState) (lang : String) :
    List RawMessageL → CatalogState × Option LoadErr
  | [] => (st, none)
  | m :: rest =>
    match entryError (currentSet st lang) lang m with
    | some e => (st, some e)
    | none => loadLoop (insertBoth st lang m) lang rest

/-- Ensure both layers have a (possibly empty) map for `lang`, as the
pre-loop block of `LoadMessages` does. -/
def ensureLang (st : CatalogState) (lang : String) : CatalogState :=
  let st :=
    if (smLookup st.messages lang).isSome then st
    else { st with messages := smInsert st.messages lang emptyMessages }
  if (smLookup st.runtimeMessages lang).isSome then st
  else { st with runtimeMessages := smInsert st.runtimeMessages lang [] }

/-- `LoadMessages`. -/
def loadMessages (st : CatalogState) (lang : String) (msgs : List RawMessageL) :
    CatalogState × Option LoadErr :=
  let normalizedLang := normalizeLangTag lang
  if normalizedLang = "" then (st, some .langRequired)
  else loadLoop (ensureLang st normalizedLang) normalizedLang msgs

/-- Overlay one language's runtime entries onto the freshly parsed base
(`msgSet.Set[key] = msg` for each runtime entry). -/
def overlayRuntime (base : SMap MessagesL) (lang : String)
    (rset : SMap RawMessageL) : SMap MessagesL :=
  let msgSet := (smLookup base lang).getD emptyMessages
  smInsert base lang
    { msgSet with set := rset.foldl (fun s p => smInsert s p.1 p.2) msgSet.set }

/-- The runtime-preservation merge of `loadFromYaml`: re-apply every
runtime language atop the new base. -/
def mergeRuntime (base : SMap MessagesL) (runtime : SMap (SMap RawMessageL)) :
    SMap MessagesL :=
  runtime.foldl (fun b p => overlayRuntime b p.1 p.2) base

/-- `loadFromYaml`, with the (retried) YAML read's result injected: on
error the state is returned untouched; on success the merged view is
published and `lastReloadAt` is set to the injected clock reading. -/
def loadFromYaml (st : CatalogState) (readResult : Except String (SMap MessagesL))
    (now : Nat) : CatalogState × Option String :=
  match readResult with
  | .error e => (st, some e)
  | .ok base =>
    ({ st with
        messages := mergeRuntime base st.runtimeMessages
        stats := { st.stats with lastReloadAt := now } }, none)

/-- `readMessagesFromYamlWithRetry`: attempt `k = 0, 1, …, retries`,
first success wins, otherwise the last error.  `attempts k` is what
`readMessagesFromYaml` would return on the `k`-th attempt. -/
def readRetryFrom (attempts : Nat → Except String (SMap MessagesL)) :
    Nat → Nat → Except String (SMap MessagesL)
  | attempt, 0 => attempts attempt
  | attempt, budget + 1 =>
    match attempts attempt with
    | .ok b => .ok b
    | .error _ => readRetryFrom attempts (attempt + 1) budget

/-- The whole retry loop (`retries` extra attempts after the first). -/
def readRetry (attempts : Nat → Except String (SMap MessagesL)) (retries : Nat) :
    Except String (SMap MessagesL) :=
  readRetryFrom attempts 0 retries

/-- `Reload` (= `loadFromYaml` behind the retry loop). -/
def reload (st : CatalogState) (attempts : Nat → Except String (SMap MessagesL))
    (retries : Nat) (now : Nat) : CatalogState × Option String :=
  loadFromYaml st (readRetry attempts retries) now

/-- The state `NewMessageCatalog` builds before its initial load:
empty layers, zeroed stats. -/
def initialState (cfg : ConfigL) : CatalogState :=
  { messages := []
    runtimeMessages := []
    cfg := cfg
    stats :=
      { languageFallbacks := [], missingLanguages := [], missingMessages := []
        templateIssues := [], droppedEvents := [], maxKeys := cfg.statsMaxKeys
        lastReloadAt := 0 }
    observerCh := .chNone }

/-- The states a catalog can sequentially reach: construction (initial
load, successful or not), then any interleaving of `LoadMessages`
(successful or not) and `Reload` (successful or not). -/
inductive Reachable : CatalogState → Prop
  | init (cfg : ConfigL) (r : Except String (SMap MessagesL)) (now : Nat) :
      Reachable (loadFromYaml (initialState cfg) r now).1
  | loadMsgs {st : CatalogState} (lang : String) (msgs : List RawMessageL) :
      Reachable st → Reachable (loadMessages st lang msgs).1
  | reloadStep {st : CatalogState} (attempts : Nat → Except String (SMap MessagesL))
      (retries now : Nat) :
      Reachable st → Reachable (reload st attempts retries now).1

/-- Every runtime-layer entry is present in the primary layer with the
same value (the catalog-store invariant). -/
def runtimeSubset (st : CatalogState) : Prop :=
  ∀ lang key m rset, smLookup st.runtimeMessages lang = some rset →
    smLookup rset key = some m →
    ∃ ms, smLookup st.messages lang = some ms ∧ smLookup ms.set key = some m

/-- Well-formedness of the runtime layer: duplicate-free key lists
(Go maps cannot hold duplicates; the model re-establishes this). -/
def runtimeWF (st : CatalogState) : Prop :=
  smNoDup st.runtimeMessages ∧
  ∀ lang rset, smLookup st.runtimeMessages lang = some rset → smNoDup rset

/-! ### Definitions following the specification's words (for the
refinement claims; the definitions above follow the source). -/

/-- Spec 4.A: "The base tag is the substring before the first `-`, or
the whole tag if no `-`." -/
def specBaseTag (s : String) : String :=
  (s.data.takeWhile (fun c => !(c = '-' : Bool))).asString

/-- Spec: duplicates "suppressed by first occurrence". -/
def dedupeKeepFirst (L : List String) : List String :=
  L.foldl (fun acc l => if l ∈ acc then acc else acc ++ [l]) []

/-- Claim C4's chain, read literally:
`dedupe([normalize(R), base(normalize(R)), fallbacks…, default, "en"])`. -/
def specChain (st : CatalogState) (R : String) : List String :=
  dedupeKeepFirst
    ([normalizeLangTag R, specBaseTag (normalizeLangTag R)] ++
      st.cfg.fallbackLanguages.map normalizeLangTag ++
      [normalizeLangTag st.cfg.defaultLanguage, "en"])

/-- Claim C4's resolution, read literally: the first chain element with
language messages; `none` is the missing-language signal. -/
def specResolve (st : CatalogState) (R : String) : Option String :=
  (specChain st R).find? (fun c => (smLookup st.messages c).isSome)

/-- Claim C1's branch selection, read literally: each branch of a
three-or-more-branch plural placeholder is `<form>:<text>`; the
renderer should pick the branch whose form equals the CLDR selector's
result for (language, count), falling back to the `other` branch and
then to the last branch. -/
def specMultiPick (lang : String) (count : Int) (branches : List String) : String :=
  let parsed := branches.map (fun b =>
    ((b.data.takeWhile (fun c => !(c = ':' : Bool))).asString,
     ((b.data.dropWhile (fun c => !(c = ':' : Bool))).drop 1).asString))
  match parsed.find? (fun p => p.1 = pluralForm lang count) with
  | some p => p.2
  | none =>
    match parsed.find? (fun p => p.1 = "other") with
    | some p => p.2
    | none => ((parsed.getLast?).map Prod.snd).getD ""

/-- A template segment: literal text or one placeholder of one of the
four classes (`simple`, `num:`, `date:`, `plural:`). -/
inductive TSeg : Type
  | lit (s : String)
  | ph (name : String)
  | phNum (name : String)
  | phDate (name : String)
  | phPlural (name a b : String)
deriving DecidableEq

/-- String with neither brace character. -/
def braceFree (s : String) : Bool :=
  s.data.all (fun c => !(c = '{' || c = '}'))

/-- A well-formed segment: a brace-free literal, a valid placeholder
name, and for plural branches the regexes' character classes
(`[^|\x7d]` / `[^\x7d]`) plus brace-freedom. -/
def tsegOk : TSeg → Bool
  | .lit s => braceFree s
  | .ph n => validParamName n
  | .phNum n => validParamName n
  | .phDate n => validParamName n
  | .phPlural n a b =>
    validParamName n && a.data.all isBranchAChar && b.data.all isBranchBChar
      && braceFree a && braceFree b

/-- The template a segment list denotes. -/
def buildTpl : List TSeg → List Char
  | [] => []
  | .lit s :: r => s.data ++ buildTpl r
  | .ph n :: r => simpleToken n ++ buildTpl r
  | .phNum n :: r => numToken n ++ buildTpl r
  | .phDate n :: r => dateToken n ++ buildTpl r
  | .phPlural n a b :: r => pluralToken n a b ++ buildTpl r

/-- Claim C8's per-placeholder text, read from the spec: a placeholder
whose named parameter is absent becomes `<missing:NAME>` in strict mode
and stays textually in place otherwise, for every placeholder class.
A present parameter is substituted as the code's corresponding
formatter renders it (the claim constrains only the missing case; an
invalid present value leaves the token in place). -/
def renderSegSpec (lang : String) (strict : Bool) (params : SMap GoValue) :
    TSeg → List Char
  | .lit s => s.data
  | .ph n =>
    match smLookup params n with
    | some v => (goToString v).data
    | none => if strict then missingText n else simpleToken n
  | .phNum n =>
    match smLookup params n with
    | none => if strict then missingText n else numToken n
    | some v =>
      match formatNumberByLang lang v with
      | none => numToken n
      | some s => s.data
  | .phDate n =>
    match smLookup params n with
    | none => if strict then missingText n else dateToken n
    | some v =>
      match formatDateByLang lang v with
      | none => dateToken n
      | some s => s.data
  | .phPlural n a b =>
    match smLookup params n with
    | none => if strict then missingText n else pluralToken n a b
    | some v =>
      match isPluralOne v with
      | none => pluralToken n a b
      | some true => a.data
      | some false => b.data

/-- Claim C8's issue for a plural placeholder:
`plural_missing_param_<name>` when the parameter is absent (the invalid
present value records the code's `plural_invalid_param_<name>`). -/
def segIssueP (params : SMap GoValue) : TSeg → List String
  | .phPlural n _ _ =>
    match smLookup params n with
    | none => ["plural_missing_param_" ++ n]
    | some v =>
      match isPluralOne v with
      | none => ["plural_invalid_param_" ++ n]
      | some _ => []
  | _ => []

/-- Claim C8's issue for a number placeholder. -/
def segIssueN (lang : String) (params : SMap GoValue) : TSeg → List String
  | .phNum n =>
    match smLookup params n with
    | none => ["number_missing_param_" ++ n]
    | some v =>
      match formatNumberByLang lang v with
      | none => ["number_invalid_param_" ++ n]
      | some _ => []
  | _ => []

/-- Claim C8's issue for a date placeholder. -/
def segIssueD (lang : String) (params : SMap GoValue) : TSeg → List String
  | .phDate n =>
    match smLookup params n with
    | none => ["date_missing_param_" ++ n]
    | some v =>
      match formatDateByLang lang v with
      | none => ["date_invalid_param_" ++ n]
      | some _ => []
  | _ => []

/-- Claim C8's issue for a simple placeholder. -/
def segIssueS (params : SMap GoValue) : TSeg → List String
  | .ph n =>
    match smLookup params n with
    | none => ["simple_missing_param_" ++ n]
    | some _ => []
  | _ => []

/-- Segment text after the plural pass (pass 1). -/
def segText1 (strict : Bool) (params : SMap GoValue) : TSeg → List Char
  | .lit s => s.data
  | .ph n => simpleToken n
  | .phNum n => numToken n
  | .phDate n => dateToken n
  | .phPlural n a b => (pluralRepl strict params (n, a, b)).1

/-- Segment text after the number pass (pass 2). -/
def segText2 (lang : String) (strict : Bool) (params : SMap GoValue) : TSeg → List Char
  | .lit s => s.data
  | .ph n => simpleToken n
  | .phNum n => (numRepl lang strict params n).1
  | .phDate n => dateToken n
  | .phPlural n a b => (pluralRepl strict params (n, a, b)).1

/-- Segment text after the date pass (pass 3). -/
def segText3 (lang : String) (strict : Bool) (params : SMap GoValue) : TSeg → List Char
  | .lit s => s.data
  | .ph n => simpleToken n
  | .phNum n => (numRepl lang strict params n).1
  | .phDate n => (dateRepl lang strict params n).1
  | .phPlural n a b => (pluralRepl strict params (n, a, b)).1

/-- A parameter value none of whose formatted renderings contains a
brace.  This always holds of Go values — the number and date
formatters emit only digits, separators, signs and slashes — and is a
hypothesis here only because the embedding carries a float as its
free-form `strconv.FormatFloat` string. -/
def inertParamValue (lang : String) (v : GoValue) : Bool :=
  (match formatNumberByLang lang v with
   | some s => braceFree s
   | none => true) &&
  (match formatDateByLang lang v with
   | some s => braceFree s
   | none => true)

/-! ### Concrete fixtures used by witnesses and counterexamples. -/

/-- A minimal language entry (default templates only). -/
def msgsEn : MessagesL :=
  { defaultEntry :=
      { longTpl := "Unexpected message", shortTpl := "Unexpected error", code := ""
        shortForms := [], longForms := [], pluralParam := "", key := "" }
    set := [] }

/-- A minimal configuration (the constructor's defaults). -/
def cfgEx : ConfigL :=
  { defaultLanguage := "en", fallbackLanguages := [], strictTemplates := false
    observerConfigured := false, statsMaxKeys := 512 }

/-- Zeroed stats with the default cap. -/
def statsEx : CatalogStats :=
  { languageFallbacks := [], missingLanguages := [], missingMessages := []
    templateIssues := [], droppedEvents := [], maxKeys := 512, lastReloadAt := 0 }

/-- A catalog holding only English. -/
def stEn : CatalogState :=
  { messages := [("en", msgsEn)], runtimeMessages := [], cfg := cfgEx
    stats := statsEx, observerCh := .chNone }

/-- Catalog for the C4 counterexample: `fr` and `en` present, `fr` the
sole configured fallback. -/
def stEx4 : CatalogState :=
  { messages := [("fr", msgsEn), ("en", msgsEn)], runtimeMessages := []
    cfg := { cfgEx with fallbackLanguages := ["fr"] }
    stats := statsEx, observerCh := .chNone }

/-- Catalog for the C4 counterexample's second divergence: the only
language present is the empty-string key (reachable in Go: the
language tag is the message file's name with the `.yaml` suffix
trimmed, so a file named exactly `.yaml` yields the `""` language). -/
def stEmptyKey : CatalogState :=
  { messages := [("", msgsEn)], runtimeMessages := [], cfg := cfgEx
    stats := statsEx, observerCh := .chNone }

/-- Catalog with an observer sink whose pipeline is running. -/
def stObs : CatalogState :=
  { messages := [("en", msgsEn)], runtimeMessages := []
    cfg := { cfgEx with observerConfigured := true }
    stats := statsEx, observerCh := .running 0 1024 }

/-! ### Association-map lemmas. -/

theorem smLookup_insert_self {α : Type} (m : SMap α) (k : String) (v : α) :
    smLookup (smInsert m k v) k = some v := by
  simp [smInsert, smLookup]

theorem smLookup_filter_ne {α : Type} (m : SMap α) (k k' : String) (h : k' ≠ k) :
    smLookup (m.filter (fun p => !(p.1 = k : Bool))) k' = smLookup m k' := by
  induction m with
  | nil => rfl
  | cons p m ih =>
    obtain ⟨a, b⟩ := p
    by_cases hp : a = k
    · have hpk : ¬ a = k' := fun hx => h (hx ▸ hp)
      simp [List.filter, hp, smLookup, hpk, ih, Ne.symm h]
    · by_cases hp' : a = k'
      · simp [List.filter, hp, hp', smLookup, h]
      · simp [List.filter, hp, hp', smLookup, ih]

theorem smLookup_insert_ne {α : Type} (m : SMap α) (k k' : String) (v : α)
    (h : k' ≠ k) : smLookup (smInsert m k v) k' = smLookup m k' := by
  have hk : ¬ k = k' := fun hx => h hx.symm
  simp [smInsert, smLookup, hk, smLookup_filter_ne m k k' h]

theorem smLookup_mem {α : Type} (m : SMap α) (k : String) (v : α)
    (h : smLookup m k = some v) : (k, v) ∈ m := by
  induction m with
  | nil => simp [smLookup] at h
  | cons p m ih =>
    obtain ⟨a, b⟩ := p
    by_cases hp : a = k
    · subst hp
      simp only [smLookup, if_true, eq_self_iff_true, Option.some.injEq] at h
      subst h
      exact List.mem_cons_self _ _
    · simp only [smLookup, if_neg hp] at h
      exact List.mem_cons_of_mem _ (ih h)

theorem smLookup_none_of_not_memKey {α : Type} (m : SMap α) (k : String)
    (h : ∀ p ∈ m, p.1 ≠ k) : smLookup m k = none := by
  induction m with
  | nil => rfl
  | cons p m ih =>
    obtain ⟨a, b⟩ := p
    have hp : a ≠ k := h (a, b) (List.mem_cons_self _ _)
    simp only [smLookup, if_neg hp]
    exact ih fun q hq => h q (List.mem_cons_of_mem _ hq)

theorem smLookup_isSome_mem {α : Type} (m : SMap α) (k : String)
    (h : (smLookup m k).isSome) : ∃ v, (k, v) ∈ m := by
  cases hv : smLookup m k with
  | none => rw [hv] at h; simp at h
  | some v => exact ⟨v, smLookup_mem m k v hv⟩

theorem smLookup_none_filter_id {α : Type} (m : SMap α) (k : String)
    (h : smLookup m k = none) : m.filter (fun p => !(p.1 = k : Bool)) = m := by
  induction m with
  | nil => rfl
  | cons p m ih =>
    obtain ⟨a, b⟩ := p
    by_cases hp : a = k
    · simp [smLookup, hp] at h
    · simp only [smLookup, if_neg hp] at h
      simp [List.filter, hp, ih h]

theorem filter_length_lt_of_lookup_some {α : Type} (m : SMap α) (k : String)
    (h : (smLookup m k).isSome) :
    (m.filter (fun p => !(p.1 = k : Bool))).length < m.length := by
  induction m with
  | nil => simp [smLookup] at h
  | cons p m ih =>
    obtain ⟨a, b⟩ := p
    by_cases hp : a = k
    · have : List.filter (fun p => !(p.1 = k : Bool)) ((a, b) :: m)
          = List.filter (fun p => !(p.1 = k : Bool)) m := by
        simp [List.filter, hp]
      rw [this]
      exact Nat.lt_succ_of_le (List.length_filter_le _ m)
    · simp only [smLookup, if_neg hp] at h
      have : List.filter (fun p => !(p.1 = k : Bool)) ((a, b) :: m)
          = (a, b) :: List.filter (fun p => !(p.1 = k : Bool)) m := by
        simp [List.filter, hp]
      rw [this, List.length_cons, List.length_cons]
      exact Nat.succ_lt_succ (ih h)

theorem smNoDup_insert {α : Type} (m : SMap α) (k : String) (v : α)
    (h : smNoDup m) : smNoDup (smInsert m k v) := by
  unfold smNoDup smInsert at *
  simp only [List.map_cons, List.nodup_cons]
  refine ⟨?_, ?_⟩
  · intro hk
    rcases List.mem_map.mp hk with ⟨p, hp, hpk⟩
    have hmem := List.of_mem_filter hp
    simp [hpk] at hmem
  · exact ((List.filter_sublist _).map Prod.fst).nodup h

/-! ### Claim theorems. -/

/-- C1: the claim (and the README, the design plan and the shipped
example) says a plural placeholder with three or more branches —
here `{{plural:count|zero:none|one:item|other:items}}`, whose branches
are `zero:none`, `one:item` and `other:items` — selects the branch
whose `<form>:` prefix matches the CLDR selector; for language `en`
and count 2 the selector yields `other`, so the token should render
`items` (second conjunct, the claim's selection read literally).  The
code instead performs only the binary split: `parsePluralTokenNamed`
takes `zero:none` as the singular branch and the whole remainder
`one:item|other:items` as the plural branch, and `isPluralOne` picks
the latter verbatim, form prefixes and all (first conjunct evaluates
the renderer at that input). -/
theorem c1_multiform_plural_token_not_cldr_selected :
    renderTemplateCore "en" false
        "\x7b\x7bplural:count|zero:none|one:item|other:items\x7d\x7d"
        [("count", .int 2)]
      = ("one:item|other:items", []) ∧
    specMultiPick "en" 2 ["zero:none", "one:item", "other:items"] = "items" ∧
    ("one:item|other:items" : String) ≠ "items" := by
  exact ⟨by rfl, by rfl, by decide⟩

/-- C3: if the (retried) YAML read fails, `Reload` returns the terminal
error and the state — messages, runtime layer, stats including
`lastReloadAt` — is exactly the prior state, so any later
`GetMessageWithCtx` yields what it would have yielded before. -/
theorem c3_failed_reload_leaves_state_intact
    (st : CatalogState) (attempts : Nat → Except String (SMap MessagesL))
    (retries now : Nat) (e : String)
    (h : readRetry attempts retries = .error e) :
    reload st attempts retries now = (st, some e) ∧
    (reload st attempts retries now).1.stats.lastReloadAt = st.stats.lastReloadAt ∧
    ∀ ctx msgKey params,
      (getMessageWithCtx (reload st attempts retries now).1 ctx msgKey params).2
        = (getMessageWithCtx st ctx msgKey params).2 := by
  have hr : reload st attempts retries now = (st, some e) := by
    unfold reload loadFromYaml
    rw [h]
  exact ⟨hr, by rw [hr], fun ctx msgKey params => by rw [hr]⟩

/-- Witness for C3 at a concrete always-failing reader. -/
theorem c3_failed_reload_leaves_state_intact_witness :
    reload stEn (fun _ => .error "boom") 2 7 = (stEn, some "boom") := by
  exact (c3_failed_reload_leaves_state_intact stEn (fun _ => .error "boom") 2 7 "boom"
    (by rfl)).1

/-- C4 counterexample, two divergences of the code from the claim's
literal chain.  First: the chain puts `normalize(R)` (here the empty
string) first and `"en"` last, so with fallback `fr` and a catalog
holding `fr` and `en` it resolves `""` to `fr`; the code replaces an
empty normalized request by `"en"` before building the chain and
resolves to `en`.  Second: for the request `-fr` the claim's base tag
(the substring before the first `-`) is `""`, so against a catalog
holding the `""` language the chain resolves to `""`; the code's
`baseLangTag` keeps a tag whose first `-` sits at index 0 unchanged,
so its chain never contains `""` and it signals missing-language
instead.  These force the two hypotheses of the amended claim: a
non-empty normalized request, and no empty-string language key. -/
theorem c4_literal_chain_divergences :
    ((resolveLanguage stEx4 "").1 = "en" ∧ specResolve stEx4 "" = some "fr") ∧
    (specResolve stEmptyKey "-fr" = some "" ∧
      (resolveLanguage stEmptyKey "-fr").2.1 = false ∧
      (resolveLanguage stEmptyKey "-fr").1 = "-fr") := by
  exact ⟨⟨by rfl, by rfl⟩, by rfl, by rfl, by rfl⟩

/-- C6 counterexample: after `Close` has returned, `observerCh` is nil,
so a `GetMessageWithCtx` that misses a message publishes nothing and no
drop counter moves — `droppedEvents` stays empty instead of gaining
`observer_closed` as the claim requires (the miss itself is still
counted under `missingMessages`). -/
theorem c6_after_close_no_observer_closed_count :
    ((getMessageWithCtx (closeCatalog stObs) none "missing.key" []).1).stats.droppedEvents
        = [] ∧
    ((getMessageWithCtx (closeCatalog stObs) none "missing.key" []).1).stats.missingMessages
        = [("en:missing.key", 1)] := by
  exact ⟨by rfl, by rfl⟩

/-- C7 counterexample: with cap `M = 3`, counting the ordinary keys
`"__overflow__"`, `"a"` and then the first-seen `"b"` when the map
already holds `M - 1 = 2` entries gives `"b"` its own entry (the map
already contains `"__overflow__"` and has fewer than `M` keys), not an
overflow increment — contradicting "once a map has reached M-1 entries,
each subsequent first-seen key is counted in `__overflow__`". -/
theorem c7_overflow_user_key_defeats_cap_claim :
    statIncrement 3 (statIncrement 3 (statIncrement 3 [] "__overflow__") "a") "b"
      = [("b", 1), ("a", 1), ("__overflow__", 1)] := by
  rfl

/-- C8 counterexample: in strict mode the original placeholder
substring can reappear in the output through a substituted parameter
value: rendering `{{a}}{{b}}` with `b = "{{a}}"` and `a` absent yields
`<missing:a>{{a}}`, which contains the `{{a}}` the claim says cannot
appear. -/
theorem c8_param_value_reintroduces_placeholder :
    renderTemplateCore "en" true "\x7b\x7ba\x7d\x7d\x7b\x7bb\x7d\x7d"
        [("b", .str "\x7b\x7ba\x7d\x7d")]
      = ("<missing:a>\x7b\x7ba\x7d\x7d", ["simple_missing_param_a"]) ∧
    containsSubList "\x7b\x7ba\x7d\x7d".data
        (renderTemplateCore "en" true "\x7b\x7ba\x7d\x7d\x7b\x7bb\x7d\x7d"
          [("b", .str "\x7b\x7ba\x7d\x7d")]).1.data = true := by
  exact ⟨by rfl, by rfl⟩

/-- C6 (amended): once `Close` has returned the publish path sees a nil
channel and discards the event with no counter at all; the
`observer_closed` counter moves only when a publish hits the transient
closed-but-not-yet-cleared channel (a racing teardown); and with the
pipeline running on a full queue the event is dropped under
`observer_queue_full`, leaving the queue unchanged. -/
theorem c6_observer_drop_accounting_amended :
    (∀ st : CatalogState, st.observerCh = .chNone → publishObserverEvent st = st) ∧
    (∀ st : CatalogState, st.cfg.observerConfigured = true →
      st.observerCh = .closedCh →
      publishObserverEvent st
        = { st with stats := { st.stats with
              droppedEvents := statIncrement st.stats.maxKeys st.stats.droppedEvents
                "observer_closed" } }) ∧
    (∀ (st : CatalogState) (p c : Nat), st.cfg.observerConfigured = true →
      st.observerCh = .running p c → c ≤ p →
      publishObserverEvent st
        = { st with stats := { st.stats with
              droppedEvents := statIncrement st.stats.maxKeys st.stats.droppedEvents
                "observer_queue_full" } }) ∧
    (∀ st : CatalogState,
      (closeCatalog st).observerCh = .chNone ∧ (closeCatalog st).stats = st.stats) := by
  refine ⟨?_, ?_, ?_, ?_⟩
  · intro st h
    by_cases hc : st.cfg.observerConfigured <;> simp [publishObserverEvent, h, hc]
  · intro st hc h
    simp [publishObserverEvent, h, hc]
  · intro st p c hc h hpc
    simp [publishObserverEvent, h, hc, Nat.not_lt.mpr hpc]
  · intro st
    cases h : st.observerCh <;> simp [closeCatalog, stopObserverWorker, h]

/-- Witness for C6 (amended) at concrete channel states. -/
theorem c6_observer_drop_accounting_amended_witness :
    publishObserverEvent (closeCatalog stObs) = closeCatalog stObs ∧
    (publishObserverEvent { stObs with observerCh := ObsCh.running 5 5 }).stats.droppedEvents
      = [("observer_queue_full", 1)] := by
  constructor
  · exact c6_observer_drop_accounting_amended.1 _ (by rfl)
  · rw [c6_observer_drop_accounting_amended.2.2.1 _ 5 5 (by rfl) (by rfl) (by decide)]
    rfl

/-- C5: `GetMessageWithCtx` always returns a message (it is total) and
its `Key` field is the queried key on every path — found message,
missing message, and both missing-language paths. -/
theorem c5_message_key_always_echoed (st : CatalogState) (ctx : Option String)
    (msgKey : String) (params : SMap GoValue) :
    (getMessageWithCtx st ctx msgKey params).2.key = msgKey := by
  unfold getMessageWithCtx
  dsimp only
  split
  · rfl
  · split
    · rfl
    · rfl

/-! ### Stats-cap lemmas (C7). -/

theorem len_smInsert_le {α : Type} (m : SMap α) (k : String) (v : α)
    (h : (smLookup m k).isSome) : (smInsert m k v).length ≤ m.length := by
  have := filter_length_lt_of_lookup_some m k h
  simp only [smInsert, List.length_cons]
  omega

theorem len_smInsert_none {α : Type} (m : SMap α) (k : String) (v : α)
    (h : smLookup m k = none) : (smInsert m k v).length = m.length + 1 := by
  simp [smInsert, smLookup_none_filter_id m k h]

theorem asString_data (s : String) : s.data.asString = s := rfl

/-- The size/overflow invariant preserved by `statIncrement`. -/
def statCapInv (M : Nat) (m : SMap Nat) : Prop :=
  m.length ≤ M ∧ (smLookup m overflowStatKey = none → m.length ≤ M - 1)

theorem statIncrement_cap_preserved (M : Nat) (hM : 0 < M) (m : SMap Nat)
    (key : String) (h : statCapInv M m) : statCapInv M (statIncrement M m key) := by
  obtain ⟨h1, h2⟩ := h
  set s := sanitizeStatKey key with hs
  unfold statIncrement
  rw [← hs]
  simp only [if_pos hM]
  by_cases hex : (smLookup m s).isSome
  · simp only [hex, if_pos]
    refine ⟨le_trans (len_smInsert_le m s _ hex) h1, fun hno => ?_⟩
    by_cases hso : s = overflowStatKey
    · rw [hso, smLookup_insert_self] at hno; cases hno
    · rw [smLookup_insert_ne _ _ _ _ (fun hx => hso hx.symm)] at hno
      exact le_trans (len_smInsert_le m s _ hex) (h2 hno)
  · simp only [hex, if_neg, Bool.false_eq_true, not_false_iff]
    have hnone : smLookup m s = none := by
      cases hv : smLookup m s with
      | none => rfl
      | some v => rw [hv] at hex; simp at hex
    by_cases hovf : (smLookup m overflowStatKey).isSome
    · simp only [hovf, if_pos]
      by_cases hsz : M ≤ smSize m
      · simp only [hsz, if_pos]
        refine ⟨le_trans (len_smInsert_le m _ _ hovf) h1, fun hno => ?_⟩
        rw [smLookup_insert_self] at hno; cases hno
      · simp only [hsz, if_neg, not_false_iff]
        have hlen := len_smInsert_none m s ((smLookup m s).getD 0 + 1) hnone
        have hsz2 : ¬ M ≤ List.length m := hsz
        refine ⟨by rw [hlen]; omega, fun hno => ?_⟩
        have hso : s ≠ overflowStatKey := by
          intro hx; rw [hx] at hnone
          rw [hnone] at hovf; simp at hovf
        rw [smLookup_insert_ne _ _ _ _ (fun hx => hso hx.symm)] at hno
        rw [hno] at hovf; simp at hovf
    · simp only [hovf, if_neg, Bool.false_eq_true, not_false_iff]
      have hovfnone : smLookup m overflowStatKey = none := by
        cases hv : smLookup m overflowStatKey with
        | none => rfl
        | some v => rw [hv] at hovf; simp at hovf
      have hm1 := h2 hovfnone
      by_cases hsz : M - 1 ≤ smSize m
      · simp only [hsz, if_pos]
        have hlen := len_smInsert_none m overflowStatKey
          ((smLookup m overflowStatKey).getD 0 + 1) hovfnone
        have hsz2 : M - 1 ≤ List.length m := hsz
        refine ⟨by rw [hlen]; omega, fun hno => ?_⟩
        rw [smLookup_insert_self] at hno; cases hno
      · simp only [hsz, if_neg, not_false_iff]
        have hlen := len_smInsert_none m s ((smLookup m s).getD 0 + 1) hnone
        have hsz2 : ¬ M - 1 ≤ List.length m := hsz
        refine ⟨by rw [hlen]; omega, fun _ => ?_⟩
        rw [hlen]
        omega

theorem statIncrement_fold_cap (M : Nat) (hM : 0 < M) (keys : List String) :
    ∀ m : SMap Nat, statCapInv M m → statCapInv M (keys.foldl (statIncrement M) m) := by
  induction keys with
  | nil => intro m h; exact h
  | cons k keys ih =>
    intro m h
    exact ih _ (statIncrement_cap_preserved M hM m k h)

/-- C7 (amended): with a positive cap `M`, (a) a map built from any
increment sequence never exceeds `M` keys; (b) a first-seen key is
coalesced into `__overflow__` exactly when the map already holds the
overflow bucket and at least `M` entries, or lacks it and holds at
least `M-1` entries; (c) below those thresholds a first-seen key gets
its own entry; (d) existing keys keep incrementing normally; (e) keys
are trimmed, empty ones become `unknown`, longer-than-120 ones are
truncated to 120. -/
theorem c7_stats_cap_accounting_amended :
    (∀ (M : Nat) (keys : List String), 0 < M →
      (keys.foldl (statIncrement M) []).length ≤ M) ∧
    (∀ (M : Nat) (m : SMap Nat) (key : String), 0 < M →
      sanitizeStatKey key = key → key ≠ overflowStatKey → smLookup m key = none →
      ((smLookup m overflowStatKey).isSome ∧ M ≤ smSize m ∨
        smLookup m overflowStatKey = none ∧ M - 1 ≤ smSize m) →
      smLookup (statIncrement M m key) key = none ∧
      smLookup (statIncrement M m key) overflowStatKey
        = some ((smLookup m overflowStatKey).getD 0 + 1)) ∧
    (∀ (M : Nat) (m : SMap Nat) (key : String), 0 < M →
      sanitizeStatKey key = key → smLookup m key = none →
      ((smLookup m overflowStatKey).isSome ∧ smSize m < M ∨
        smLookup m overflowStatKey = none ∧ smSize m < M - 1) →
      smLookup (statIncrement M m key) key = some 1) ∧
    (∀ (M : Nat) (m : SMap Nat) (key : String) (n : Nat),
      sanitizeStatKey key = key → smLookup m key = some n →
      smLookup (statIncrement M m key) key = some (n + 1)) ∧
    (∀ key : String,
      (goTrim key = "" → sanitizeStatKey key = "unknown") ∧
      (goTrim key ≠ "" →
        sanitizeStatKey key = ((goTrim key).data.take 120).asString)) := by
  refine ⟨?_, ?_, ?_, ?_, ?_⟩
  · intro M keys hM
    exact (statIncrement_fold_cap M hM keys [] ⟨by simp, fun _ => by simp⟩).1
  · intro M m key hM hsan hko hnone hsat
    have hex : (smLookup m key).isSome = false := by rw [hnone]; rfl
    unfold statIncrement
    rw [hsan]
    simp only [if_pos hM, hex, Bool.false_eq_true, if_neg, not_false_iff]
    rcases hsat with ⟨hovf, hsz⟩ | ⟨hovf, hsz⟩
    · simp only [hovf, if_pos, hsz]
      exact ⟨(smLookup_insert_ne _ _ _ _ hko).trans hnone, smLookup_insert_self _ _ _⟩
    · have hovf' : (smLookup m overflowStatKey).isSome = false := by rw [hovf]; rfl
      simp only [hovf', Bool.false_eq_true, if_neg, not_false_iff, hsz, if_pos]
      exact ⟨(smLookup_insert_ne _ _ _ _ hko).trans hnone, smLookup_insert_self _ _ _⟩
  · intro M m key hM hsan hnone hsat
    have hex : (smLookup m key).isSome = false := by rw [hnone]; rfl
    unfold statIncrement
    rw [hsan]
    simp only [if_pos hM, hex, Bool.false_eq_true, if_neg, not_false_iff]
    rcases hsat with ⟨hovf, hsz⟩ | ⟨hovf, hsz⟩
    · have hsz' : ¬ M ≤ smSize m := by omega
      simp only [hovf, if_pos, hsz', if_neg, not_false_iff]
      rw [smLookup_insert_self, hnone]
      rfl
    · have hovf' : (smLookup m overflowStatKey).isSome = false := by rw [hovf]; rfl
      have hsz' : ¬ M - 1 ≤ smSize m := by omega
      simp only [hovf', Bool.false_eq_true, if_neg, not_false_iff, hsz']
      rw [smLookup_insert_self, hnone]
      rfl
  · intro M m key n hsan hsome
    have hex : (smLookup m key).isSome := by rw [hsome]; rfl
    unfold statIncrement
    rw [hsan]
    by_cases hM : 0 < M
    · simp only [if_pos hM, hex, if_pos]
      rw [smLookup_insert_self, hsome]
      rfl
    · simp only [if_neg hM]
      rw [smLookup_insert_self, hsome]
      rfl
  · intro key
    refine ⟨fun h => by simp [sanitizeStatKey, h], fun h => ?_⟩
    unfold sanitizeStatKey
    simp only [if_neg h]
    by_cases hl : 120 < (goTrim key).data.length
    · rw [if_pos hl]
    · rw [if_neg hl, List.take_of_length_le (by omega), asString_data]

/-- Witness for C7 (amended) at concrete maps. -/
theorem c7_stats_cap_accounting_amended_witness :
    (["a", "b", "c", "d", "e"].foldl (statIncrement 3) []).length ≤ 3 ∧
    smLookup (statIncrement 3 [("b", 2), ("a", 1)] "c") "c" = none ∧
    smLookup (statIncrement 3 [("b", 2), ("a", 1)] "c") "__overflow__" = some 1 ∧
    smLookup (statIncrement 3 [("b", 2), ("a", 1)] "b") "b" = some 3 := by
  refine ⟨c7_stats_cap_accounting_amended.1 3 ["a", "b", "c", "d", "e"] (by decide),
    ?_, ?_,
    c7_stats_cap_accounting_amended.2.2.2.1 3 [("b", 2), ("a", 1)] "b" 2 (by rfl) (by rfl)⟩
  · exact (c7_stats_cap_accounting_amended.2.1 3 [("b", 2), ("a", 1)] "c" (by decide)
      (by rfl) (by decide) (by rfl) (Or.inr ⟨by rfl, by decide⟩)).1
  · exact (c7_stats_cap_accounting_amended.2.1 3 [("b", 2), ("a", 1)] "c" (by decide)
      (by rfl) (by decide) (by rfl) (Or.inr ⟨by rfl, by decide⟩)).2

/-! ### Catalog-store lemmas (C2, C10). -/

theorem smLookup_foldl_insert_not_memKey {α : Type} (l : SMap α) (k : String) :
    ∀ s : SMap α, (∀ p ∈ l, p.1 ≠ k) →
    smLookup (l.foldl (fun s p => smInsert s p.1 p.2) s) k = smLookup s k := by
  induction l with
  | nil => intro s _; rfl
  | cons p l ih =>
    intro s h
    rw [List.foldl_cons]
    rw [ih _ fun q hq => h q (List.mem_cons_of_mem p hq)]
    exact smLookup_insert_ne _ _ _ _ fun hx => h p (List.mem_cons_self p l) hx.symm

theorem smLookup_foldl_insert_mem {α : Type} (l : SMap α) (k : String) (v : α) :
    ∀ s : SMap α, smNoDup l → (k, v) ∈ l →
    smLookup (l.foldl (fun s p => smInsert s p.1 p.2) s) k = some v := by
  induction l with
  | nil => intro s _ hmem; cases hmem
  | cons p l ih =>
    intro s hnd hmem
    have hnd' : smNoDup l := by
      unfold smNoDup at hnd ⊢
      exact (List.nodup_cons.mp hnd).2
    rcases List.mem_cons.mp hmem with heq | hmem'
    · subst heq
      rw [List.foldl_cons]
      rw [smLookup_foldl_insert_not_memKey l k _ ?_]
      · exact smLookup_insert_self _ _ _
      · intro q hq hqk
        have : q.1 ∈ l.map Prod.fst := List.mem_map_of_mem Prod.fst hq
        rw [hqk] at this
        exact (List.nodup_cons.mp hnd).1 this
    · rw [List.foldl_cons]
      exact ih _ hnd' hmem'

theorem overlayRuntime_other (base : SMap MessagesL) (lang : String)
    (rset : SMap RawMessageL) (lang' : String) (h : lang' ≠ lang) :
    smLookup (overlayRuntime base lang rset) lang' = smLookup base lang' := by
  unfold overlayRuntime
  exact smLookup_insert_ne _ _ _ _ h

theorem overlayRuntime_self (base : SMap MessagesL) (lang : String)
    (rset : SMap RawMessageL) (hnd : smNoDup rset) (k : String) (m : RawMessageL)
    (h : smLookup rset k = some m) :
    ∃ ms, smLookup (overlayRuntime base lang rset) lang = some ms ∧
      smLookup ms.set k = some m := by
  unfold overlayRuntime
  refine ⟨_, smLookup_insert_self _ _ _, ?_⟩
  exact smLookup_foldl_insert_mem rset k m _ hnd (smLookup_mem rset k m h)

theorem mergeRuntime_not_memKey (runtime : SMap (SMap RawMessageL)) (lang : String) :
    ∀ base, (∀ p ∈ runtime, p.1 ≠ lang) →
    smLookup (mergeRuntime base runtime) lang = smLookup base lang := by
  induction runtime with
  | nil => intro base _; rfl
  | cons p rt ih =>
    intro base h
    unfold mergeRuntime at ih ⊢
    rw [List.foldl_cons]
    rw [ih _ fun q hq => h q (List.mem_cons_of_mem p hq)]
    exact overlayRuntime_other _ _ _ _ fun hx => h p (List.mem_cons_self p rt) hx.symm

theorem mergeRuntime_subset (runtime : SMap (SMap RawMessageL)) :
    ∀ base, smNoDup runtime →
    (∀ lang rset, smLookup runtime lang = some rset → smNoDup rset) →
    ∀ lang rset k m, smLookup runtime lang = some rset → smLookup rset k = some m →
    ∃ ms, smLookup (mergeRuntime base runtime) lang = some ms ∧
      smLookup ms.set k = some m := by
  induction runtime with
  | nil => intro base _ _ lang rset k m hr _; simp [smLookup] at hr
  | cons p rt ih =>
    intro base hnd hin lang rset k m hr hk
    obtain ⟨l, rs⟩ := p
    have hnd' : smNoDup rt := (List.nodup_cons.mp hnd).2
    have hlnot : ∀ q ∈ rt, q.1 ≠ l := by
      intro q hq hql
      have : q.1 ∈ rt.map Prod.fst := List.mem_map_of_mem Prod.fst hq
      rw [hql] at this
      exact (List.nodup_cons.mp hnd).1 this
    unfold mergeRuntime at ih ⊢
    rw [List.foldl_cons]
    by_cases hl : l = lang
    · subst hl
      simp only [smLookup, if_pos rfl] at hr
      cases hr
      have hrs : smNoDup rset := hin l rset (by simp [smLookup])
      have := mergeRuntime_not_memKey rt l (overlayRuntime base l rset) hlnot
      unfold mergeRuntime at this
      rw [this]
      exact overlayRuntime_self base l rset hrs k m hk
    · simp only [smLookup, if_neg hl] at hr
      refine ih _ hnd' ?_ lang rset k m hr hk
      intro lang' rset' hr'
      by_cases hll : l = lang'
      · subst hll
        have : smLookup rt l = none := by
          apply smLookup_none_of_not_memKey
          intro q hq
          exact hlnot q hq
        rw [this] at hr'; cases hr'
      · refine hin lang' rset' ?_
        simp only [smLookup, if_neg hll]
        exact hr'

/-- The store invariant: well-formed runtime layer contained in the
primary layer. -/
def CatInv (st : CatalogState) : Prop := runtimeWF st ∧ runtimeSubset st

theorem catInv_initial (cfg : ConfigL) : CatInv (initialState cfg) := by
  refine ⟨⟨by simp [initialState, smNoDup], ?_⟩, ?_⟩
  · intro lang rset h; simp [initialState, smLookup] at h
  · intro lang key m rset h; simp [initialState, smLookup] at h

theorem catInv_loadFromYaml (st : CatalogState)
    (r : Except String (SMap MessagesL)) (now : Nat) (h : CatInv st) :
    CatInv (loadFromYaml st r now).1 := by
  cases r with
  | error e => exact h
  | ok base =>
    obtain ⟨⟨hnd, hin⟩, _⟩ := h
    refine ⟨⟨hnd, hin⟩, ?_⟩
    intro lang key m rset hr hk
    exact mergeRuntime_subset st.runtimeMessages base hnd hin lang rset key m hr hk

theorem catInv_ensureLang (st : CatalogState) (lang : String) (h : CatInv st) :
    CatInv (ensureLang st lang) := by
  obtain ⟨⟨hnd, hin⟩, hsub⟩ := h
  unfold ensureLang
  by_cases hm : (smLookup st.messages lang).isSome
  · simp only [hm, if_pos]
    by_cases hr : (smLookup st.runtimeMessages lang).isSome
    · simp only [hr, if_pos]
      exact ⟨⟨hnd, hin⟩, hsub⟩
    · simp only [hr, Bool.false_eq_true, if_neg, not_false_iff]
      refine ⟨⟨smNoDup_insert _ _ _ hnd, ?_⟩, ?_⟩
      · intro lang' rset h'
        by_cases hl : lang' = lang
        · subst hl
          rw [smLookup_insert_self] at h'
          cases h'
          simp [smNoDup]
        · rw [smLookup_insert_ne _ _ _ _ hl] at h'
          exact hin lang' rset h'
      · intro lang' key m rset h' hk
        by_cases hl : lang' = lang
        · subst hl
          simp only [smLookup_insert_self] at h'
          cases h'
          simp [smLookup] at hk
        · simp only [smLookup_insert_ne _ _ _ _ hl] at h'
          exact hsub lang' key m rset h' hk
  · simp only [hm, Bool.false_eq_true, if_neg, not_false_iff]
    have hmnone : smLookup st.messages lang = none := by
      cases hv : smLookup st.messages lang with
      | none => rfl
      | some v => rw [hv] at hm; simp at hm
    by_cases hr : (smLookup st.runtimeMessages lang).isSome
    · simp only [hr, if_pos]
      refine ⟨⟨hnd, hin⟩, ?_⟩
      intro lang' key m rset h' hk
      by_cases hl : lang' = lang
      · subst hl
        rcases hsub lang' key m rset h' hk with ⟨ms, hms, _⟩
        rw [hmnone] at hms; cases hms
      · rcases hsub lang' key m rset h' hk with ⟨ms, hms, hset⟩
        exact ⟨ms, by rw [smLookup_insert_ne _ _ _ _ hl]; exact hms, hset⟩
    · simp only [hr, Bool.false_eq_true, if_neg, not_false_iff]
      refine ⟨⟨smNoDup_insert _ _ _ hnd, ?_⟩, ?_⟩
      · intro lang' rset h'
        by_cases hl : lang' = lang
        · subst hl
          rw [smLookup_insert_self] at h'
          cases h'
          simp [smNoDup]
        · rw [smLookup_insert_ne _ _ _ _ hl] at h'
          exact hin lang' rset h'
      · intro lang' key m rset h' hk
        by_cases hl : lang' = lang
        · subst hl
          simp only [smLookup_insert_self] at h'
          cases h'
          simp [smLookup] at hk
        · simp only [smLookup_insert_ne _ _ _ _ hl] at h'
          rcases hsub lang' key m rset h' hk with ⟨ms, hms, hset⟩
          exact ⟨ms, by rw [smLookup_insert_ne _ _ _ _ hl]; exact hms, hset⟩

theorem currentSet_insertBoth (st : CatalogState) (lang : String) (m : RawMessageL) :
    currentSet (insertBoth st lang m) lang
      = smInsert (currentSet st lang) m.key (normalizeEntry m) := by
  unfold currentSet insertBoth
  rw [smLookup_insert_self]
  rfl

theorem runtime_insertBoth (st : CatalogState) (lang : String) (m : RawMessageL) :
    smLookup (insertBoth st lang m).runtimeMessages lang
      = some (smInsert ((smLookup st.runtimeMessages lang).getD []) m.key
          (normalizeEntry m)) := by
  unfold insertBoth
  exact smLookup_insert_self _ _ _

theorem catInv_insertBoth (st : CatalogState) (lang : String) (m : RawMessageL)
    (h : CatInv st) : CatInv (insertBoth st lang m) := by
  obtain ⟨⟨hnd, hin⟩, hsub⟩ := h
  refine ⟨⟨smNoDup_insert _ _ _ hnd, ?_⟩, ?_⟩
  · intro lang' rset h'
    by_cases hl : lang' = lang
    · subst hl
      rw [runtime_insertBoth] at h'
      cases h'
      apply smNoDup_insert
      cases hv : smLookup st.runtimeMessages lang' with
      | none => simp [smNoDup]
      | some rs => exact hin lang' rs hv
    · unfold insertBoth at h'
      simp only [smLookup_insert_ne _ _ _ _ hl] at h'
      exact hin lang' rset h'
  · intro lang' key m' rset h' hk
    by_cases hl : lang' = lang
    · subst hl
      rw [runtime_insertBoth] at h'
      cases h'
      by_cases hkm : key = m.key
      · subst hkm
        rw [smLookup_insert_self] at hk
        cases hk
        refine ⟨{ (smLookup st.messages lang').getD emptyMessages with
            set := smInsert ((smLookup st.messages lang').getD emptyMessages).set
              m.key (normalizeEntry m) }, ?_, ?_⟩
        · unfold insertBoth
          exact smLookup_insert_self _ _ _
        · exact smLookup_insert_self _ _ _
      · rw [smLookup_insert_ne _ _ _ _ hkm] at hk
        cases hrt : smLookup st.runtimeMessages lang' with
        | none => rw [hrt] at hk; simp [smLookup] at hk
        | some rs0 =>
          rw [hrt] at hk
          simp only [Option.getD_some] at hk
          rcases hsub lang' key m' rs0 hrt hk with ⟨ms, hms, hset⟩
          refine ⟨{ (smLookup st.messages lang').getD emptyMessages with
              set := smInsert ((smLookup st.messages lang').getD emptyMessages).set
                m.key (normalizeEntry m) }, ?_, ?_⟩
          · unfold insertBoth
            exact smLookup_insert_self _ _ _
          · simp only
            rw [smLookup_insert_ne _ _ _ _ hkm, hms]
            simp only [Option.getD_some]
            exact hset
    · unfold insertBoth at h' ⊢
      simp only [smLookup_insert_ne _ _ _ _ hl] at h'
      rcases hsub lang' key m' rset h' hk with ⟨ms, hms, hset⟩
      refine ⟨ms, ?_, hset⟩
      simp only [smLookup_insert_ne _ _ _ _ hl]
      exact hms

theorem catInv_loadLoop (lang : String) :
    ∀ (msgs : List RawMessageL) (st : CatalogState), CatInv st →
    CatInv (loadLoop st lang msgs).1 := by
  intro msgs
  induction msgs with
  | nil => intro st h; exact h
  | cons m rest ih =>
    intro st h
    unfold loadLoop
    cases he : entryError (currentSet st lang) lang m with
    | some e => exact h
    | none => exact ih _ (catInv_insertBoth st lang m h)

theorem catInv_loadMessages (st : CatalogState) (lang : String)
    (msgs : List RawMessageL) (h : CatInv st) : CatInv (loadMessages st lang msgs).1 := by
  unfold loadMessages
  by_cases hl : normalizeLangTag lang = ""
  · simp only [hl, if_pos]
    exact h
  · simp only [hl, if_neg, not_false_iff]
    exact catInv_loadLoop _ msgs _ (catInv_ensureLang st _ h)

theorem catInv_reachable (st : CatalogState) (h : Reachable st) : CatInv st := by
  induction h with
  | init cfg r now => exact catInv_loadFromYaml _ r now (catInv_initial cfg)
  | loadMsgs lang msgs _ ih => exact catInv_loadMessages _ lang msgs ih
  | reloadStep attempts retries now _ ih => exact catInv_loadFromYaml _ _ now ih

theorem loadLoop_cons (st : CatalogState) (lang : String) (m : RawMessageL)
    (rest : List RawMessageL) :
    loadLoop st lang (m :: rest)
      = match entryError (currentSet st lang) lang m with
        | some e => (st, some e)
        | none => loadLoop (insertBoth st lang m) lang rest := rfl

theorem loadLoop_append_ok (lang : String) :
    ∀ (a b : List RawMessageL) (st : CatalogState),
    (loadLoop st lang a).2 = none →
    loadLoop st lang (a ++ b) = loadLoop (loadLoop st lang a).1 lang b := by
  intro a
  induction a with
  | nil => intro b st _; rfl
  | cons m rest ih =>
    intro b st h
    cases he : entryError (currentSet st lang) lang m with
    | some e => simp only [loadLoop_cons, he] at h; cases h
    | none =>
      simp only [List.cons_append, loadLoop_cons, he] at h ⊢
      exact ih b _ h

theorem loadLoop_preserves (lang : String) :
    ∀ (msgs : List RawMessageL) (st : CatalogState) (k : String) (v : RawMessageL),
    (loadLoop st lang msgs).2 = none →
    smLookup (currentSet st lang) k = some v →
    smLookup (currentSet (loadLoop st lang msgs).1 lang) k = some v ∧
    (∀ w, smLookup ((smLookup st.runtimeMessages lang).getD []) k = some w →
      smLookup ((smLookup (loadLoop st lang msgs).1.runtimeMessages lang).getD []) k
        = some w) := by
  intro msgs
  induction msgs with
  | nil => intro st k v _ hset; exact ⟨hset, fun w hw => hw⟩
  | cons m rest ih =>
    intro st k v h hset
    cases he : entryError (currentSet st lang) lang m with
    | some e => simp only [loadLoop_cons, he] at h; cases h
    | none =>
      simp only [loadLoop_cons, he] at h ⊢
      have hkm : k ≠ m.key := by
        intro hx
        unfold entryError at he
        by_cases h1 : m.key = ""
        · simp [h1] at he
        · by_cases h2 : hasPrefixList runtimeKeyPfx.data m.key.data
          · by_cases h3 : validMessageKey m.key
            · simp only [h1, if_neg, not_false_iff, h2, Bool.not_true,
                Bool.false_eq_true, h3] at he
              rw [← hx] at he
              rw [hset] at he
              simp at he
            · simp [h1, h2, h3] at he
          · simp [h1, h2] at he
      have hset' : smLookup (currentSet (insertBoth st lang m) lang) k = some v := by
        rw [currentSet_insertBoth, smLookup_insert_ne _ _ _ _ hkm]
        exact hset
      refine ⟨(ih _ k v h hset').1, fun w hw => ?_⟩
      refine (ih _ k v h hset').2 w ?_
      rw [runtime_insertBoth]
      simp only [Option.getD_some]
      rw [smLookup_insert_ne _ _ _ _ hkm]
      exact hw

theorem loadLoop_success_mem (lang : String) :
    ∀ (msgs : List RawMessageL) (st : CatalogState),
    (loadLoop st lang msgs).2 = none → ∀ m ∈ msgs,
    smLookup (currentSet (loadLoop st lang msgs).1 lang) m.key
      = some (normalizeEntry m) ∧
    smLookup ((smLookup (loadLoop st lang msgs).1.runtimeMessages lang).getD []) m.key
      = some (normalizeEntry m) := by
  intro msgs
  induction msgs with
  | nil => intro st _ m hm; cases hm
  | cons m0 rest ih =>
    intro st h m hm
    cases he : entryError (currentSet st lang) lang m0 with
    | some e => simp only [loadLoop_cons, he] at h; cases h
    | none =>
      simp only [loadLoop_cons, he] at h ⊢
      rcases List.mem_cons.mp hm with heq | hm'
      · subst heq
        have hself : smLookup (currentSet (insertBoth st lang m) lang) m.key
            = some (normalizeEntry m) := by
          rw [currentSet_insertBoth]
          exact smLookup_insert_self _ _ _
        refine ⟨(loadLoop_preserves lang rest _ m.key _ h hself).1, ?_⟩
        refine (loadLoop_preserves lang rest _ m.key _ h hself).2 _ ?_
        rw [runtime_insertBoth]
        simp only [Option.getD_some]
        exact smLookup_insert_self _ _ _
      · exact ih _ h m hm'

/-- C2: (a) at every reachable catalog state — after construction, any
mix of `LoadMessages` calls and reloads, successful or not — every key
in the runtime layer is also in the primary layer for its language with
the same entry; (b) a successful `LoadMessages` puts each given entry
into the runtime layer for the normalized language under its key, with
the stored (key-zeroed) value.  Together: after any successful reload,
every key loaded via `LoadMessages` is still retrievable from the
primary layer with the value last written. -/
theorem c2_runtime_layer_subset_of_primary :
    (∀ st : CatalogState, Reachable st → runtimeSubset st) ∧
    (∀ (st : CatalogState) (lang : String) (msgs : List RawMessageL),
      (loadMessages st lang msgs).2 = none → ∀ m ∈ msgs,
      smLookup
        ((smLookup (loadMessages st lang msgs).1.runtimeMessages
          (normalizeLangTag lang)).getD []) m.key = some (normalizeEntry m)) := by
  constructor
  · intro st h
    exact (catInv_reachable st h).2
  · intro st lang msgs h m hm
    unfold loadMessages at h ⊢
    by_cases hl : normalizeLangTag lang = ""
    · simp [hl] at h
    · simp only [hl, if_neg, not_false_iff] at h ⊢
      exact (loadLoop_success_mem _ msgs _ h m hm).2

/-- Witness for C2: a concrete load-then-reload run. -/
theorem c2_runtime_layer_subset_of_primary_witness :
    runtimeSubset
      (reload (loadMessages (loadFromYaml (initialState cfgEx) (.ok [("en", msgsEn)]) 1).1
          "en" [{ longTpl := "L", shortTpl := "S", code := "", shortForms := [],
                  longForms := [], pluralParam := "", key := "sys.x" }]).1
        (fun _ => .ok [("en", msgsEn)]) 0 2).1 ∧
    smLookup
      ((smLookup (loadMessages (loadFromYaml (initialState cfgEx) (.ok [("en", msgsEn)]) 1).1
          "en" [{ longTpl := "L", shortTpl := "S", code := "", shortForms := [],
                  longForms := [], pluralParam := "", key := "sys.x" }]).1.runtimeMessages
          "en").getD []) "sys.x"
      = some { longTpl := "L", shortTpl := "S", code := "", shortForms := [],
               longForms := [], pluralParam := "", key := "" } := by
  constructor
  · exact c2_runtime_layer_subset_of_primary.1 _
      (Reachable.reloadStep _ 0 2 (Reachable.loadMsgs _ _ (Reachable.init cfgEx _ 1)))
  · exact c2_runtime_layer_subset_of_primary.2 _ "en" _ (by rfl) _
      (List.mem_singleton_self _)

/-- C10: `LoadMessages` is not atomic on rejection.  If loading the
first `i` entries succeeds and entry `i` is then rejected (empty key,
missing `sys.` prefix, bad format, or duplicate — `entryError` in check
order), the call returns that error, the final state is exactly the
state after the successful prefix, and every earlier entry is already
merged into both the primary and the runtime layer and remains
retrievable with its stored (key-zeroed) value. -/
theorem c10_load_messages_partial_merge
    (st : CatalogState) (lang : String) (msgs : List RawMessageL) (i : Nat)
    (err : LoadErr)
    (hlang : normalizeLangTag lang ≠ "")
    (hi : i < msgs.length)
    (hpre : (loadMessages st lang (msgs.take i)).2 = none)
    (hbad : entryError (currentSet (loadMessages st lang (msgs.take i)).1
        (normalizeLangTag lang)) (normalizeLangTag lang) (msgs.get ⟨i, hi⟩)
      = some err) :
    (loadMessages st lang msgs).2 = some err ∧
    (loadMessages st lang msgs).1 = (loadMessages st lang (msgs.take i)).1 ∧
    ∀ j (hj : j < i),
      smLookup (currentSet (loadMessages st lang msgs).1 (normalizeLangTag lang))
          (msgs.get ⟨j, lt_trans hj hi⟩).key
        = some (normalizeEntry (msgs.get ⟨j, lt_trans hj hi⟩)) ∧
      smLookup ((smLookup (loadMessages st lang msgs).1.runtimeMessages
          (normalizeLangTag lang)).getD [])
          (msgs.get ⟨j, lt_trans hj hi⟩).key
        = some (normalizeEntry (msgs.get ⟨j, lt_trans hj hi⟩)) := by
  have hmsgs : msgs = msgs.take i ++ msgs.get ⟨i, hi⟩ :: msgs.drop (i + 1) := by
    conv_lhs => rw [← List.take_append_drop i msgs]
    simp only [List.get_eq_getElem]
    rw [List.drop_eq_getElem_cons hi]
  simp only [loadMessages, if_neg hlang] at hpre hbad ⊢
  set prep := ensureLang st (normalizeLangTag lang) with hprep
  set Sp := (loadLoop prep (normalizeLangTag lang) (msgs.take i)).1 with hSp
  have hfull : loadLoop prep (normalizeLangTag lang) msgs = (Sp, some err) := by
    conv_lhs => rw [hmsgs]
    rw [loadLoop_append_ok _ _ _ _ hpre, loadLoop_cons, hbad]
  refine ⟨by rw [hfull], by rw [hfull], ?_⟩
  intro j hj
  have hjt : j < (msgs.take i).length := by
    rw [List.length_take]
    omega
  have hget : (msgs.take i).get ⟨j, hjt⟩ = msgs.get ⟨j, lt_trans hj hi⟩ := by
    simp only [List.get_eq_getElem]
    rw [List.getElem_take]
  have hmem : msgs.get ⟨j, lt_trans hj hi⟩ ∈ msgs.take i := by
    rw [← hget]
    exact List.get_mem _ _ _
  have := loadLoop_success_mem (normalizeLangTag lang) (msgs.take i) prep hpre
    (msgs.get ⟨j, lt_trans hj hi⟩) hmem
  rw [hfull]
  exact this

/-- A valid runtime entry used by the C10 witness. -/
def m1ex : RawMessageL :=
  { longTpl := "L1", shortTpl := "S1", code := "", shortForms := [], longForms := []
    pluralParam := "", key := "sys.a" }

/-- An entry with an empty key (rejected by `LoadMessages`). -/
def m2ex : RawMessageL :=
  { longTpl := "L2", shortTpl := "S2", code := "", shortForms := [], longForms := []
    pluralParam := "", key := "" }

/-- Witness for C10: the first entry is merged and retrievable even
though the second is rejected. -/
theorem c10_load_messages_partial_merge_witness :
    (loadMessages stEn "en" [m1ex, m2ex]).2 = some LoadErr.emptyKey ∧
    smLookup (currentSet (loadMessages stEn "en" [m1ex, m2ex]).1 (normalizeLangTag "en"))
        ([m1ex, m2ex].get ⟨0, by decide⟩).key
      = some (normalizeEntry ([m1ex, m2ex].get ⟨0, by decide⟩)) := by
  have h := c10_load_messages_partial_merge stEn "en" [m1ex, m2ex] 1 LoadErr.emptyKey
    (by decide) (by decide) (by rfl) (by rfl)
  exact ⟨h.1, (h.2.2 0 (by decide)).1⟩

/-! ### Number-formatting lemmas (C9). -/

theorem data_asString (l : List Char) : l.asString.data = l := rfl

theorem takeWhile_append_cons {p : Char → Bool} (a : List Char) (d : Char)
    (b : List Char) (ha : ∀ c ∈ a, p c = true) (hd : p d = false) :
    (a ++ d :: b).takeWhile p = a ∧ (a ++ d :: b).dropWhile p = d :: b := by
  induction a with
  | nil => simp [List.takeWhile, List.dropWhile, hd]
  | cons c a ih =>
    have hc : p c = true := ha c (List.mem_cons_self c a)
    have ih' := ih fun x hx => ha x (List.mem_cons_of_mem c hx)
    simp [List.takeWhile, List.dropWhile, hc, ih'.1, ih'.2]

theorem takeWhile_all {p : Char → Bool} (l : List Char)
    (h : ∀ c ∈ l, p c = true) :
    l.takeWhile p = l ∧ l.dropWhile p = [] := by
  induction l with
  | nil => simp
  | cons c l ih =>
    have hc : p c = true := h c (List.mem_cons_self c l)
    have ih' := ih fun x hx => h x (List.mem_cons_of_mem c hx)
    simp [List.takeWhile, List.dropWhile, hc, ih'.1, ih'.2]

/-- `digitChar` always yields a decimal digit. -/
theorem digitChar_is_digit (n : Nat) : ('0' ≤ digitChar n ∧ digitChar n ≤ '9') := by
  unfold digitChar
  have h : n % 10 < 10 := Nat.mod_lt _ (by norm_num)
  set k := n % 10 with hk
  interval_cases k <;> exact ⟨by decide, by decide⟩

theorem natDigitsAux_digits : ∀ (fuel n : Nat), ∀ c ∈ natDigitsAux fuel n,
    ('0' ≤ c ∧ c ≤ '9') := by
  intro fuel
  induction fuel with
  | zero => intro n c hc; cases hc
  | succ fuel ih =>
    intro n c hc
    unfold natDigitsAux at hc
    by_cases hn : n < 10
    · simp only [hn, if_pos, List.mem_singleton] at hc
      subst hc
      exact digitChar_is_digit n
    · simp only [hn, if_neg, not_false_iff, List.mem_append, List.mem_singleton] at hc
      rcases hc with hc | hc
      · exact ih _ c hc
      · subst hc
        exact digitChar_is_digit _

theorem natToDecStr_digits (n : Nat) : ∀ c ∈ (natToDecStr n).data,
    ('0' ≤ c ∧ c ≤ '9') := by
  intro c hc
  exact natDigitsAux_digits (n + 1) n c hc

theorem natToDecStr_ne_nil (n : Nat) : (natToDecStr n).data ≠ [] := by
  unfold natToDecStr natDigitsAux
  by_cases hn : n < 10
  · simp [hn, data_asString]
  · simp only [hn, if_neg, not_false_iff, data_asString]
    intro h
    rcases List.append_eq_nil.mp h with ⟨_, h2⟩
    cases h2

theorem digit_ne_seps (c : Char) (h : '0' ≤ c ∧ c ≤ '9') :
    c ≠ ',' ∧ c ≠ '.' ∧ c ≠ '-' := by
  obtain ⟨h1, h2⟩ := h
  refine ⟨?_, ?_, ?_⟩ <;> intro he <;> subst he <;> revert h1 <;> decide

theorem hasPrefix_dash_false (l : List Char)
    (h : ∀ c ∈ l, ('0' ≤ c ∧ c ≤ '9')) :
    hasPrefixList "-".data l = false := by
  cases l with
  | nil => rfl
  | cons c cs =>
    have hne : ¬ ('-' = c) :=
      fun hx => (digit_ne_seps c (h c (List.mem_cons_self c cs))).2.2 hx.symm
    simp [hasPrefixList, hne]

theorem groupTail_mem (sep : List Char) :
    ∀ (n : Nat) (l : List Char), l.length ≤ n → ∀ c ∈ groupTail sep l,
    c ∈ l ∨ c ∈ sep := by
  intro n
  induction n with
  | zero =>
    intro l hl c hc
    rw [List.length_eq_zero.mp (Nat.le_zero.mp hl)] at hc ⊢
    cases hc
  | succ n ih =>
    intro l hl c hc
    match l with
    | [] => cases hc
    | [a] => exact Or.inl hc
    | [a, b] => exact Or.inl hc
    | a :: b :: d :: rest =>
      have he : groupTail sep (a :: b :: d :: rest)
          = sep ++ ([a, b, d] ++ groupTail sep rest) := by
        simp [groupTail]
      rw [he] at hc
      rcases List.mem_append.mp hc with hc | hc
      · exact Or.inr hc
      · rcases List.mem_append.mp hc with hc | hc
        · simp only [List.mem_cons, List.not_mem_nil, or_false] at hc
          rcases hc with h1 | h1 | h1 <;> subst h1 <;> simp
        · have hrl : rest.length ≤ n := by
            simp only [List.length_cons] at hl
            omega
          rcases ih rest hrl c hc with hin | hin
          · exact Or.inl (by simp [hin])
          · exact Or.inr hin

theorem groupDigits_mem (input sep : String) (c : Char)
    (hc : c ∈ (groupDigits input sep).data) : c ∈ input.data ∨ c ∈ sep.data := by
  unfold groupDigits at hc
  by_cases hl : input.data.length ≤ 3
  · simp only [hl, if_pos] at hc
    exact Or.inl hc
  · simp only [hl, if_neg, not_false_iff, data_asString, List.mem_append] at hc
    rcases hc with hc | hc
    · exact Or.inl (List.mem_of_mem_take hc)
    · rcases groupTail_mem sep.data (input.data.drop _).length _ le_rfl c hc with h | h
      · exact Or.inl (List.mem_of_mem_drop h)
      · exact Or.inr h

theorem formatNumber_int_nonneg (lang : String) (i : Int) (h : 0 ≤ i) :
    formatNumberByLang lang (.int i)
      = some (groupDigits (natToDecStr i.natAbs) (groupSeparator lang)) := by
  unfold formatNumberByLang intToDecStr
  have hne : ¬ i < 0 := not_lt.mpr h
  simp only [hne, if_neg, not_false_iff]
  rw [hasPrefix_dash_false _ (natToDecStr_digits i.natAbs)]
  simp

theorem formatNumber_int_neg (lang : String) (i : Int) (h : i < 0) :
    formatNumberByLang lang (.int i)
      = some ("-" ++ groupDigits (natToDecStr i.natAbs) (groupSeparator lang)) := by
  unfold formatNumberByLang intToDecStr
  simp only [h, if_pos]
  have hdata : ("-" ++ natToDecStr i.natAbs).data = '-' :: (natToDecStr i.natAbs).data :=
    String.data_append _ _
  rw [hdata]
  have hpre : hasPrefixList "-".data ('-' :: (natToDecStr i.natAbs).data) = true := by
    simp [hasPrefixList]
  rw [hpre]
  simp only [if_pos, List.drop_succ_cons, List.drop_zero, asString_data]

theorem formatNumber_uint (lang : String) (n : Nat) :
    formatNumberByLang lang (.uint n)
      = some (groupDigits (natToDecStr n) (groupSeparator lang)) := rfl

/-- The decimal and grouping separators always differ, and both are
single characters. -/
theorem seps_distinct (lang : String) :
    (decimalSeparator lang).data.length = 1 ∧
    (groupSeparator lang).data.length = 1 ∧
    decimalSeparator lang ≠ groupSeparator lang := by
  unfold decimalSeparator groupSeparator
  by_cases h : swappedSepLang lang <;> simp [h]

theorem contains_single_false (d : Char) (cs : List Char)
    (h : ∀ c ∈ cs, c ≠ d) : containsSubList [d] cs = false := by
  induction cs with
  | nil => rfl
  | cons c cs ih =>
    have hc : ¬ (d = c) := fun hx => h c (List.mem_cons_self c cs) hx.symm
    simp only [containsSubList, hasPrefixList, Bool.or_eq_false_iff]
    constructor
    · simp [hc]
    · exact ih fun x hx => h x (List.mem_cons_of_mem c hx)

theorem formatNumber_int_chars (lang : String) (i : Int) (s : String)
    (h : formatNumberByLang lang (.int i) = some s) :
    ∀ c ∈ s.data, ('0' ≤ c ∧ c ≤ '9') ∨ c = '-' ∨ c ∈ (groupSeparator lang).data := by
  intro c hc
  by_cases hneg : i < 0
  · rw [formatNumber_int_neg lang i hneg] at h
    cases h
    rw [String.data_append] at hc
    rcases List.mem_append.mp hc with hx | hx
    · right; left; simpa using hx
    · rcases groupDigits_mem _ _ _ hx with hx | hx
      · exact Or.inl (natToDecStr_digits _ _ hx)
      · right; right; exact hx
  · rw [formatNumber_int_nonneg lang i (not_lt.mp hneg)] at h
    cases h
    rcases groupDigits_mem _ _ _ hc with hx | hx
    · exact Or.inl (natToDecStr_digits _ _ hx)
    · right; right; exact hx

theorem formatNumber_int_no_decimal (lang : String) (i : Int) (s : String)
    (h : formatNumberByLang lang (.int i) = some s) :
    containsSubList (decimalSeparator lang).data s.data = false := by
  cases hs : swappedSepLang lang
  · have hd : decimalSeparator lang = "." := by simp [decimalSeparator, hs]
    have hg : groupSeparator lang = "," := by simp [groupSeparator, hs]
    rw [hd]
    apply contains_single_false
    intro c hc heq
    rcases formatNumber_int_chars lang i s h c hc with hx | hx | hx
    · exact (digit_ne_seps c hx).2.1 heq
    · rw [heq] at hx; exact absurd hx (by decide)
    · rw [hg, heq] at hx; exact absurd hx (by decide)
  · have hd : decimalSeparator lang = "," := by simp [decimalSeparator, hs]
    have hg : groupSeparator lang = "." := by simp [groupSeparator, hs]
    rw [hd]
    apply contains_single_false
    intro c hc heq
    rcases formatNumber_int_chars lang i s h c hc with hx | hx | hx
    · exact (digit_ne_seps c hx).1 heq
    · rw [heq] at hx; exact absurd hx (by decide)
    · rw [hg, heq] at hx; exact absurd hx (by decide)

/-- The float value's decimal rendering, assembled from its sign,
integer digits and optional fraction digits (the shortest round-trip
form `strconv.FormatFloat(v, 'f', -1, 64)` produces). -/
def mkFloatStr (neg : Bool) (ip : String) (fp : Option String) : String :=
  (if neg then "-" else "") ++ ip ++ (match fp with | none => "" | some f => "." ++ f)

theorem stringDataEq (a b : String) (h : a.data = b.data) : a = b := by
  cases a; cases b; cases h; rfl

theorem splitAtDot_no_dot (s : String) (h : ∀ c ∈ s.data, ¬ (c = '.')) :
    splitAtDot s = (s, none) := by
  unfold splitAtDot
  have ht := takeWhile_all (p := fun c => !(c = '.' : Bool)) s.data
    (fun c hc => by simp [h c hc])
  rw [ht.1]
  simp

theorem splitAtDot_dot (a b : String) (h : ∀ c ∈ a.data, ¬ (c = '.')) :
    splitAtDot (a ++ "." ++ b) = (a, some b) := by
  unfold splitAtDot
  have hdata : (a ++ "." ++ b).data = a.data ++ '.' :: b.data := by
    rw [String.data_append, String.data_append]
    simp
  rw [hdata]
  have ht := takeWhile_append_cons (p := fun c => !(c = '.' : Bool)) a.data '.' b.data
    (fun c hc => by simp [h c hc]) (by simp)
  rw [ht.1]
  have hlen : ¬ (a.data.length = (a.data ++ '.' :: b.data).length) := by
    simp
  simp only [hlen, if_neg, not_false_iff, asString_data]
  have hdrop : (a.data ++ '.' :: b.data).drop (a.data.length + 1) = b.data := by
    have : a.data ++ '.' :: b.data = (a.data ++ ['.']) ++ b.data := by simp
    rw [this]
    have hl : (a.data ++ ['.']).length = a.data.length + 1 := by simp
    rw [← hl, List.drop_left]
  rw [hdrop, asString_data]

theorem formatFloatStr_mk (grp dec : String) (neg : Bool) (ip : String)
    (fp : Option String)
    (hd : ∀ c ∈ ip.data, ('0' ≤ c ∧ c ≤ '9')) :
    formatFloatStr grp dec (mkFloatStr neg ip fp)
      = (if neg then "-" else "") ++ groupDigits ip grp
          ++ (match fp with | none => "" | some f => dec ++ f) := by
  have hipdot : ∀ c ∈ ip.data, ¬ (c = '.') :=
    fun c hc => (digit_ne_seps c (hd c hc)).2.1
  have hipdash : hasPrefixList "-".data ip.data = false := hasPrefix_dash_false _ hd
  cases neg with
  | false =>
    have hm : mkFloatStr false ip fp
        = ip ++ (match fp with | none => "" | some f => "." ++ f) := by
      apply stringDataEq
      simp [mkFloatStr, String.data_append]
    rw [hm]
    cases fp with
    | none =>
      have hip : ip ++ "" = ip := by
        apply stringDataEq
        simp [String.data_append]
      rw [hip]
      unfold formatFloatStr
      rw [splitAtDot_no_dot ip hipdot]
      simp only [hipdash, Bool.false_eq_true, if_neg, not_false_iff]
      apply stringDataEq
      simp [String.data_append]
    | some f =>
      have hf : ip ++ ("." ++ f) = ip ++ "." ++ f := by
        apply stringDataEq
        simp [String.data_append]
      rw [hf]
      unfold formatFloatStr
      rw [splitAtDot_dot ip f hipdot]
      simp only [hipdash, Bool.false_eq_true, if_neg, not_false_iff]
      apply stringDataEq
      simp [String.data_append]
  | true =>
    have hm : mkFloatStr true ip fp
        = ("-" ++ ip) ++ (match fp with | none => "" | some f => "." ++ f) := by
      apply stringDataEq
      simp [mkFloatStr, String.data_append]
    rw [hm]
    have hdashdot : ∀ c ∈ ("-" ++ ip).data, ¬ (c = '.') := by
      intro c hc
      rw [String.data_append] at hc
      rcases List.mem_append.mp hc with hx | hx
      · simp only [List.mem_singleton] at hx
        subst hx; decide
      · exact hipdot c hx
    have hdashpre : hasPrefixList "-".data ("-" ++ ip).data = true := by
      rw [String.data_append]
      simp [hasPrefixList]
    have hdashdrop : (("-" ++ ip).data.drop 1).asString = ip := by
      rw [String.data_append]
      simp [asString_data]
    cases fp with
    | none =>
      have hip : ("-" ++ ip) ++ "" = "-" ++ ip := by
        apply stringDataEq
        simp [String.data_append]
      rw [hip]
      unfold formatFloatStr
      rw [splitAtDot_no_dot _ hdashdot]
      simp only [hdashpre, if_pos, hdashdrop]
      apply stringDataEq
      simp [String.data_append]
    | some f =>
      have hf : ("-" ++ ip) ++ ("." ++ f) = ("-" ++ ip) ++ "." ++ f := by
        apply stringDataEq
        simp [String.data_append]
      rw [hf]
      unfold formatFloatStr
      rw [splitAtDot_dot _ f hdashdot]
      simp only [hdashpre, if_pos, hdashdrop]
      apply stringDataEq
      simp [String.data_append]

/-- C9: locale-aware number formatting.  (a) the default separators are
`,` grouping / `.` decimal and they are swapped exactly for the base
tags es, pt, fr, de, it; (b) non-negative integers and (c) unsigned
integers group their digits with the language's grouping separator and
(d) negative integers keep a leading `-` before the grouped digits;
(e) integer output never contains the decimal separator (no fractional
part); (f) a float — carried as its shortest round-trip decimal form,
which by construction has no trailing fraction zeros — keeps its sign,
groups its integer digits and appends the fraction verbatim behind the
decimal separator; (g) concretely, `{{num:amount}}` with 12345.5
renders `12,345.5` for `en` and `12.345,5` for `es`. -/
theorem c9_number_locale_formatting :
    (decimalSeparator "en" = "." ∧ groupSeparator "en" = "," ∧
      decimalSeparator "es-MX" = "," ∧ groupSeparator "es-MX" = "." ∧
      decimalSeparator "pt" = "," ∧ decimalSeparator "fr" = "," ∧
      decimalSeparator "de" = "," ∧ decimalSeparator "it" = "," ∧
      decimalSeparator "ja" = ".") ∧
    (∀ (lang : String) (i : Int), 0 ≤ i →
      formatNumberByLang lang (.int i)
        = some (groupDigits (natToDecStr i.natAbs) (groupSeparator lang))) ∧
    (∀ (lang : String) (n : Nat),
      formatNumberByLang lang (.uint n)
        = some (groupDigits (natToDecStr n) (groupSeparator lang))) ∧
    (∀ (lang : String) (i : Int), i < 0 →
      formatNumberByLang lang (.int i)
        = some ("-" ++ groupDigits (natToDecStr i.natAbs) (groupSeparator lang))) ∧
    (∀ (lang : String) (i : Int) (s : String),
      formatNumberByLang lang (.int i) = some s →
      containsSubList (decimalSeparator lang).data s.data = false) ∧
    (∀ (lang : String) (neg : Bool) (ip : String) (fp : Option String),
      (∀ c ∈ ip.data, ('0' ≤ c ∧ c ≤ '9')) →
      formatNumberByLang lang (.float (mkFloatStr neg ip fp))
        = some ((if neg then "-" else "") ++ groupDigits ip (groupSeparator lang)
            ++ (match fp with | none => "" | some f => decimalSeparator lang ++ f))) ∧
    (renderTemplateCore "en" false "Total: \x7b\x7bnum:amount\x7d\x7d"
        [("amount", .float "12345.5")] = ("Total: 12,345.5", []) ∧
      renderTemplateCore "es" false "Total: \x7b\x7bnum:amount\x7d\x7d"
        [("amount", .float "12345.5")] = ("Total: 12.345,5", [])) := by
  refine ⟨by refine ⟨rfl, rfl, rfl, rfl, rfl, rfl, rfl, rfl, rfl⟩,
    formatNumber_int_nonneg, formatNumber_uint, formatNumber_int_neg,
    formatNumber_int_no_decimal, ?_, by rfl, by rfl⟩
  intro lang neg ip fp hd
  show some (formatFloatStr (groupSeparator lang) (decimalSeparator lang)
      (mkFloatStr neg ip fp)) = _
  rw [formatFloatStr_mk _ _ neg ip fp hd]

/-- Witness for C9 at concrete numbers. -/
theorem c9_number_locale_formatting_witness :
    formatNumberByLang "en" (.int 1234567) = some "1,234,567" ∧
    formatNumberByLang "de-AT" (.int (-1234567)) = some "-1.234.567" ∧
    formatNumberByLang "es" (.float (mkFloatStr false "12345" (some "5")))
      = some "12.345,5" := by
  refine ⟨?_, ?_, ?_⟩
  · rw [c9_number_locale_formatting.2.1 "en" 1234567 (by decide)]
    rfl
  · rw [c9_number_locale_formatting.2.2.2.1 "de-AT" (-1234567) (by decide)]
    rfl
  · rw [c9_number_locale_formatting.2.2.2.2.2.1 "es" false "12345" (some "5")
      (by decide)]
    rfl

/-! ### Language-resolution lemmas (C4). -/

/-- First-some combination on options. -/
def obor (a b : Option String) : Option String :=
  match a with
  | some x => some x
  | none => b

theorem obor_none (b : Option String) : obor none b = b := rfl

theorem obor_assoc (a b c : Option String) :
    obor (obor a b) c = obor a (obor b c) := by
  cases a <;> rfl

theorem find?_append_str (p : String → Bool) (a b : List String) :
    (a ++ b).find? p = obor (a.find? p) (b.find? p) := by
  induction a with
  | nil => rfl
  | cons x a ih =>
    cases hx : p x with
    | true => simp [List.find?, hx, obor]
    | false => simp [List.find?, hx, ih]

theorem find?_none_all (p : String → Bool) (l : List String)
    (h : l.find? p = none) : ∀ x ∈ l, p x = false := by
  intro x hx
  cases hp : p x with
  | false => rfl
  | true =>
    exact absurd (List.find?_eq_none.mp h x hx) (by simp [hp])

theorem ff_fold_add (p : String → Bool) (hp : p "" = false) :
    ∀ (L acc : List String),
    (L.foldl appendLangIfMissing acc).find? p = obor (acc.find? p) (L.find? p) := by
  intro L
  induction L with
  | nil =>
    intro acc
    rw [List.foldl_nil]
    cases hacc : acc.find? p <;> simp [hacc, obor]
  | cons l L ih =>
    intro acc
    rw [List.foldl_cons]
    have hstep : appendLangIfMissing acc l
        = if l = "" ∨ l ∈ acc then acc else acc ++ [l] := rfl
    rw [hstep]
    by_cases hskip : l = "" ∨ l ∈ acc
    · rw [if_pos hskip, ih acc]
      cases hacc : acc.find? p with
      | some x => rfl
      | none =>
        have hl : p l = false := by
          rcases hskip with h1 | h1
          · rw [h1]; exact hp
          · exact find?_none_all p acc hacc l h1
        simp [obor, List.find?, hl]
    · rw [if_neg hskip, ih (acc ++ [l]), find?_append_str, obor_assoc]
      cases hacc : acc.find? p with
      | some x => rfl
      | none =>
        cases hl : p l with
        | true => simp [obor, List.find?, hl]
        | false => simp [obor, List.find?, hl]

theorem ff_fold_dedupe (p : String → Bool) :
    ∀ (L acc : List String),
    ((L.foldl (fun acc l => if l ∈ acc then acc else acc ++ [l]) acc).find? p)
      = obor (acc.find? p) (L.find? p) := by
  intro L
  induction L with
  | nil =>
    intro acc
    rw [List.foldl_nil]
    cases hacc : acc.find? p <;> simp [hacc, obor]
  | cons l L ih =>
    intro acc
    rw [List.foldl_cons]
    by_cases hskip : l ∈ acc
    · rw [if_pos hskip, ih acc]
      cases hacc : acc.find? p with
      | some x => rfl
      | none =>
        have hl : p l = false := find?_none_all p acc hacc l hskip
        simp [obor, List.find?, hl]
    · rw [if_neg hskip, ih (acc ++ [l]), find?_append_str, obor_assoc]
      cases hacc : acc.find? p with
      | some x => rfl
      | none =>
        cases hl : p l with
        | true => simp [obor, List.find?, hl]
        | false => simp [obor, List.find?, hl]

theorem takeWhile_eq_self_of_length {p : Char → Bool} (l : List Char)
    (h : (l.takeWhile p).length = l.length) : l.takeWhile p = l :=
  (List.takeWhile_prefix p).eq_of_length h

theorem baseTag_cases (n : String) :
    (baseLangTag n = n ∧ specBaseTag n = "") ∨ baseLangTag n = specBaseTag n := by
  unfold baseLangTag specBaseTag
  by_cases h0 : (n.data.takeWhile (fun c => !(c = '-' : Bool))).length = 0
  · left
    constructor
    · rw [if_pos (Or.inl h0)]
    · rw [List.length_eq_zero.mp h0]
      rfl
  · by_cases hfull : (n.data.takeWhile (fun c => !(c = '-' : Bool))).length = n.data.length
    · right
      rw [if_pos (Or.inr hfull), takeWhile_eq_self_of_length _ hfull, asString_data]
    · right
      have : ¬ ((n.data.takeWhile (fun c => !(c = '-' : Bool))).length = 0 ∨
          (n.data.takeWhile (fun c => !(c = '-' : Bool))).length = n.data.length) := by
        intro hx
        rcases hx with hx | hx
        · exact h0 hx
        · exact hfull hx
      rw [if_neg this]

theorem candidates_eq (st : CatalogState) (n : String) :
    appendLangIfMissing
      (appendLangIfMissing
        ((st.cfg.fallbackLanguages.map normalizeLangTag).foldl appendLangIfMissing
          (appendLangIfMissing (appendLangIfMissing [] n) (baseLangTag n)))
        (normalizeLangTag st.cfg.defaultLanguage))
      "en"
    = ([n, baseLangTag n] ++ st.cfg.fallbackLanguages.map normalizeLangTag
        ++ [normalizeLangTag st.cfg.defaultLanguage, "en"]).foldl
        appendLangIfMissing [] := by
  simp [List.foldl_append]

/-- C4 (amended): for a requested tag whose normalized form is
non-empty, against a catalog with no empty-string language key, the
resolved language is the first element of the claim's duplicate-free
chain `dedupe([normalize(R), base(normalize(R)), fallbacks…, default,
"en"])` with language messages, and missing-language is signalled
exactly when no element is present.  (An empty normalized request is
replaced by `"en"` up front, which is what breaks the original claim.) -/
theorem c4_resolution_follows_chain_amended (st : CatalogState) (R : String)
    (hR : normalizeLangTag R ≠ "")
    (hcat : ∀ p ∈ st.messages, p.1 ≠ "") :
    (resolveLanguage st R).1 = (specResolve st R).getD (normalizeLangTag R) ∧
    (resolveLanguage st R).2.1 = (specResolve st R).isSome := by
  set p : String → Bool := fun c => (smLookup st.messages c).isSome with hpdef
  have hp : p "" = false := by
    rw [hpdef]
    simp only
    cases hv : smLookup st.messages "" with
    | none => rfl
    | some v => exact absurd rfl (hcat _ (smLookup_mem _ _ _ hv))
  set n := normalizeLangTag R with hndef
  set T : List String := st.cfg.fallbackLanguages.map normalizeLangTag
      ++ [normalizeLangTag st.cfg.defaultLanguage, "en"] with hTdef
  have hcode : ([n, baseLangTag n] ++ T).find? p = ([n, specBaseTag n] ++ T).find? p := by
    rcases baseTag_cases n with ⟨hb1, hb2⟩ | hb
    · rw [hb1, hb2]
      simp only [List.cons_append, List.nil_append, List.find?]
      cases hn : p n with
      | true => rfl
      | false => simp [List.find?, hp]
    · rw [hb]
  have hspec : specResolve st R = ([n, specBaseTag n] ++ T).find? p := by
    unfold specResolve specChain dedupeKeepFirst
    rw [ff_fold_dedupe p]
    rfl
  have hres : resolveLanguage st R
      = match (([n, baseLangTag n] ++ T).foldl appendLangIfMissing []).find? p with
        | some c => (c, true, decide (c ≠ n))
        | none => (n, false, false) := by
    simp only [resolveLanguage]
    rw [← hndef, if_neg hR, candidates_eq]
    simp only [List.append_assoc]
  rw [hres, ff_fold_add p hp]
  rw [show List.find? p [] = none from rfl, obor_none, hcode, ← hspec]
  cases ho : specResolve st R with
  | some c => exact ⟨rfl, rfl⟩
  | none => exact ⟨rfl, rfl⟩

/-- Witness for C4 (amended) on the two-language catalog. -/
theorem c4_resolution_follows_chain_amended_witness :
    (resolveLanguage stEx4 "ES-ar").1 = (specResolve stEx4 "ES-ar").getD "es-ar" ∧
    (resolveLanguage stEx4 "ES-ar").2.1 = (specResolve stEx4 "ES-ar").isSome := by
  exact c4_resolution_follows_chain_amended stEx4 "ES-ar" (by decide) (by decide)

/-! ### Scanner lemmas (C8). -/

theorem matchLit_shape : ∀ (p cs r : List Char), matchLit p cs = some r → cs = p ++ r := by
  intro p
  induction p with
  | nil =>
    intro cs r h
    simp only [matchLit, Option.some.injEq] at h
    rw [h, List.nil_append]
  | cons a p ih =>
    intro cs r h
    cases cs with
    | nil => simp [matchLit] at h
    | cons c cs =>
      by_cases hac : a = c
      · subst hac
        simp only [matchLit, if_pos rfl] at h
        rw [List.cons_append, ih cs r h]
      · simp [matchLit, hac] at h

theorem matchLit_self : ∀ (p r : List Char), matchLit p (p ++ r) = some r := by
  intro p
  induction p with
  | nil => intro r; rfl
  | cons a p ih => intro r; simp [matchLit, ih r]

theorem takeName_shape (cs n r : List Char) (h : takeName cs = some (n, r)) :
    cs = n ++ r := by
  cases cs with
  | nil => simp [takeName] at h
  | cons c cs =>
    by_cases hc : isNameStartChar c = true
    · simp only [takeName, hc, if_pos, Option.some.injEq, Prod.mk.injEq] at h
      obtain ⟨h1, h2⟩ := h
      rw [← h1, ← h2]
      simp [List.takeWhile_append_dropWhile]
    · simp [takeName, hc] at h

/-- Every successful match strictly consumes input. -/
def Consumes {π : Type} (tryM : List Char → Option (π × List Char)) : Prop :=
  ∀ cs pr, tryM cs = some pr → pr.2.length < cs.length

/-- Success shape of `trySimple`. -/
theorem trySimple_some (cs : List Char) (nm : String) (rest : List Char)
    (h : trySimple cs = some (nm, rest)) :
    ∃ nmd, nmd.asString = nm ∧ cs = openBraces ++ nmd ++ closeBraces ++ rest := by
  unfold trySimple at h
  cases h1 : matchLit openBraces cs with
  | none => rw [h1] at h; cases h
  | some r1 =>
    rw [h1] at h
    simp only [Option.bind_eq_bind, Option.some_bind] at h
    cases h2 : takeName r1 with
    | none => rw [h2] at h; cases h
    | some nr =>
      obtain ⟨nmd, r2⟩ := nr
      rw [h2] at h
      simp only [Option.bind_eq_bind, Option.some_bind] at h
      cases h3 : matchLit closeBraces r2 with
      | none => rw [h3] at h; cases h
      | some r3 =>
        rw [h3] at h
        simp only [Option.bind_eq_bind, Option.some_bind, Option.some.injEq,
          Prod.mk.injEq] at h
        obtain ⟨hnm, hrest⟩ := h
        subst hrest
        have e1 := matchLit_shape _ _ _ h1
        have e2 := takeName_shape _ _ _ h2
        have e3 := matchLit_shape _ _ _ h3
        refine ⟨nmd, hnm, ?_⟩
        rw [e1, e2, e3]
        simp [List.append_assoc]

theorem trySimple_consumes : Consumes trySimple := by
  intro cs pr h
  obtain ⟨nm, rest⟩ := pr
  obtain ⟨nmd, _, hshape⟩ := trySimple_some cs nm rest h
  rw [hshape]
  simp [openBraces, closeBraces]
  omega

theorem tryNum_consumes : Consumes tryNum := by
  intro cs pr h
  unfold tryNum at h
  cases h1 : matchLit openBraces cs with
  | none => rw [h1] at h; cases h
  | some r1 =>
    rw [h1] at h
    simp only [Option.bind_eq_bind, Option.some_bind] at h
    cases h1b : matchLit numTag r1 with
    | none => rw [h1b] at h; cases h
    | some r1b =>
      rw [h1b] at h
      simp only [Option.bind_eq_bind, Option.some_bind] at h
      cases h2 : takeName r1b with
      | none => rw [h2] at h; cases h
      | some nr =>
        obtain ⟨nm, r2⟩ := nr
        rw [h2] at h
        simp only [Option.bind_eq_bind, Option.some_bind] at h
        cases h3 : matchLit closeBraces r2 with
        | none => rw [h3] at h; cases h
        | some r3 =>
          rw [h3] at h
          simp only [Option.bind_eq_bind, Option.some_bind, Option.some.injEq] at h
          rw [← h]
          have e1 := matchLit_shape _ _ _ h1
          have e1b := matchLit_shape _ _ _ h1b
          have e2 := takeName_shape _ _ _ h2
          have e3 := matchLit_shape _ _ _ h3
          rw [e1, e1b, e2, e3]
          simp [openBraces, closeBraces, numTag]
          omega

theorem tryDate_consumes : Consumes tryDate := by
  intro cs pr h
  unfold tryDate at h
  cases h1 : matchLit openBraces cs with
  | none => rw [h1] at h; cases h
  | some r1 =>
    rw [h1] at h
    simp only [Option.bind_eq_bind, Option.some_bind] at h
    cases h1b : matchLit dateTag r1 with
    | none => rw [h1b] at h; cases h
    | some r1b =>
      rw [h1b] at h
      simp only [Option.bind_eq_bind, Option.some_bind] at h
      cases h2 : takeName r1b with
      | none => rw [h2] at h; cases h
      | some nr =>
        obtain ⟨nm, r2⟩ := nr
        rw [h2] at h
        simp only [Option.bind_eq_bind, Option.some_bind] at h
        cases h3 : matchLit closeBraces r2 with
        | none => rw [h3] at h; cases h
        | some r3 =>
          rw [h3] at h
          simp only [Option.bind_eq_bind, Option.some_bind, Option.some.injEq] at h
          rw [← h]
          have e1 := matchLit_shape _ _ _ h1
          have e1b := matchLit_shape _ _ _ h1b
          have e2 := takeName_shape _ _ _ h2
          have e3 := matchLit_shape _ _ _ h3
          rw [e1, e1b, e2, e3]
          simp [openBraces, closeBraces, dateTag]
          omega

theorem tryPlural_consumes : Consumes tryPlural := by
  intro cs pr h
  unfold tryPlural at h
  cases h1 : matchLit openBraces cs with
  | none => rw [h1] at h; cases h
  | some r1 =>
    rw [h1] at h
    simp only [Option.bind_eq_bind, Option.some_bind] at h
    cases h1b : matchLit pluralTag r1 with
    | none => rw [h1b] at h; cases h
    | some r1b =>
      rw [h1b] at h
      simp only [Option.bind_eq_bind, Option.some_bind] at h
      cases h2 : takeName r1b with
      | none => rw [h2] at h; cases h
      | some nr =>
        obtain ⟨nm, r2⟩ := nr
        rw [h2] at h
        simp only [Option.bind_eq_bind, Option.some_bind] at h
        cases h3 : matchLit ['|'] r2 with
        | none => rw [h3] at h; cases h
        | some r3 =>
          rw [h3] at h
          simp only [Option.bind_eq_bind, Option.some_bind] at h
          cases h4 : matchLit ['|'] (r3.dropWhile isBranchAChar) with
          | none => rw [h4] at h; cases h
          | some r4 =>
            rw [h4] at h
            simp only [Option.bind_eq_bind, Option.some_bind] at h
            cases h5 : matchLit closeBraces (r4.dropWhile isBranchBChar) with
            | none => rw [h5] at h; cases h
            | some r5 =>
              rw [h5] at h
              simp only [Option.bind_eq_bind, Option.some_bind,
                Option.some.injEq] at h
              rw [← h]
              have e1 := matchLit_shape _ _ _ h1
              have e1b := matchLit_shape _ _ _ h1b
              have e2 := takeName_shape _ _ _ h2
              have e3 := matchLit_shape _ _ _ h3
              have e4 := matchLit_shape _ _ _ h4
              have e5 := matchLit_shape _ _ _ h5
              have hr3 : r3.length = (r3.takeWhile isBranchAChar).length
                  + (r3.dropWhile isBranchAChar).length := by
                conv_lhs => rw [← List.takeWhile_append_dropWhile (p := isBranchAChar)
                  (l := r3)]
                rw [List.length_append]
              have hr4 : r4.length = (r4.takeWhile isBranchBChar).length
                  + (r4.dropWhile isBranchBChar).length := by
                conv_lhs => rw [← List.takeWhile_append_dropWhile (p := isBranchBChar)
                  (l := r4)]
                rw [List.length_append]
              have l1 : cs.length = 2 + r1.length := by rw [e1]; simp [openBraces]; omega
              have l2 : r1.length = 7 + r1b.length := by rw [e1b]; simp [pluralTag]; omega
              have l3 : r1b.length = nm.length + r2.length := by rw [e2]; simp
              have l4 : r2.length = 1 + r3.length := by rw [e3]; simp; omega
              have l5 : (r3.dropWhile isBranchAChar).length = 1 + r4.length := by
                rw [e4]; simp; omega
              have l6 : (r4.dropWhile isBranchBChar).length = 2 + r5.length := by
                rw [e5]; simp [closeBraces]; omega
              simp only
              omega

theorem scanAux_fuel_eq {π : Type} (tryM : List Char → Option (π × List Char))
    (repl : π → List Char × List String) (hc : Consumes tryM) :
    ∀ (N : Nat) (cs : List Char) (f : Nat), cs.length ≤ N → cs.length ≤ f →
    scanAux tryM repl f cs = scanAux tryM repl cs.length cs := by
  intro N
  induction N with
  | zero =>
    intro cs f hN _
    rw [List.length_eq_zero.mp (Nat.le_zero.mp hN)]
    cases f <;> rfl
  | succ N ih =>
    intro cs f hN hf
    cases cs with
    | nil => cases f <;> rfl
    | cons c cs =>
      simp only [List.length_cons] at hN hf ⊢
      cases f with
      | zero => omega
      | succ f =>
        show scanAux tryM repl (f + 1) (c :: cs) = scanAux tryM repl (cs.length + 1) (c :: cs)
        unfold scanAux
        cases hm : tryM (c :: cs) with
        | none =>
          dsimp only
          rw [ih cs f (by omega) (by omega)]
        | some pr =>
          obtain ⟨parts, rest⟩ := pr
          have hlt : rest.length < cs.length + 1 := by
            have := hc _ _ hm
            simpa using this
          dsimp only
          rw [ih rest f (by omega) (by omega), ih rest cs.length (by omega) (by omega)]

theorem scanAux_eq_scanRun {π : Type} (tryM : List Char → Option (π × List Char))
    (repl : π → List Char × List String) (hc : Consumes tryM) (f : Nat)
    (cs : List Char) (hf : cs.length ≤ f) :
    scanAux tryM repl f cs = scanRun tryM repl cs :=
  scanAux_fuel_eq tryM repl hc cs.length cs f le_rfl hf

theorem scanRun_nil {π : Type} (tryM : List Char → Option (π × List Char))
    (repl : π → List Char × List String) : scanRun tryM repl [] = ([], []) := rfl

theorem scanRun_cons_nomatch {π : Type} (tryM : List Char → Option (π × List Char))
    (repl : π → List Char × List String) (c : Char) (cs : List Char)
    (h : tryM (c :: cs) = none) :
    scanRun tryM repl (c :: cs)
      = (c :: (scanRun tryM repl cs).1, (scanRun tryM repl cs).2) := by
  show scanAux tryM repl (c :: cs).length (c :: cs) = _
  rw [List.length_cons]
  unfold scanAux
  rw [h]
  rfl

theorem scanRun_cons_match {π : Type} (tryM : List Char → Option (π × List Char))
    (repl : π → List Char × List String) (hc : Consumes tryM) (c : Char)
    (cs : List Char) (pr : π × List Char) (h : tryM (c :: cs) = some pr) :
    scanRun tryM repl (c :: cs)
      = ((repl pr.1).1 ++ (scanRun tryM repl pr.2).1,
          (repl pr.1).2 ++ (scanRun tryM repl pr.2).2) := by
  obtain ⟨parts, rest⟩ := pr
  have hlt : rest.length < cs.length + 1 := by
    have := hc _ _ h
    simpa using this
  show scanAux tryM repl (c :: cs).length (c :: cs) = _
  rw [List.length_cons]
  unfold scanAux
  rw [h]
  dsimp only
  rw [scanAux_eq_scanRun tryM repl hc cs.length rest (by omega)]

/-- No match can start at any position strictly inside `a`, whatever
follows it. -/
def SpanNoMatch {π : Type} (tryM : List Char → Option (π × List Char))
    (a : List Char) : Prop :=
  ∀ (rest : List Char) (k : Nat), k < a.length → tryM (a.drop k ++ rest) = none

theorem drop_append_le (a b : List Char) :
    ∀ k, k ≤ a.length → (a ++ b).drop k = a.drop k ++ b := by
  induction a with
  | nil =>
    intro k hk
    rw [Nat.le_zero.mp hk]
    rfl
  | cons c a ih =>
    intro k hk
    cases k with
    | zero => rfl
    | succ k =>
      simp only [List.cons_append, List.drop_succ_cons]
      exact ih k (by simpa using hk)

theorem drop_append_ge (a b : List Char) :
    ∀ k, a.length ≤ k → (a ++ b).drop k = b.drop (k - a.length) := by
  induction a with
  | nil => intro k _; rfl
  | cons c a ih =>
    intro k hk
    cases k with
    | zero => simp at hk
    | succ k =>
      simp only [List.cons_append, List.drop_succ_cons, List.length_cons]
      rw [ih k (by simpa using hk)]
      congr 1
      omega

theorem spanNoMatch_append {π : Type} (tryM : List Char → Option (π × List Char))
    (a b : List Char) (ha : SpanNoMatch tryM a) (hb : SpanNoMatch tryM b) :
    SpanNoMatch tryM (a ++ b) := by
  intro rest k hk
  by_cases hka : k < a.length
  · rw [drop_append_le a b k (by omega), List.append_assoc]
    exact ha (b ++ rest) k hka
  · rw [drop_append_ge a b k (by omega)]
    have : k - a.length < b.length := by
      rw [List.length_append] at hk
      omega
    exact hb rest (k - a.length) this

theorem spanNoMatch_shift {π : Type} (tryM : List Char → Option (π × List Char))
    (c : Char) (a : List Char) (h : SpanNoMatch tryM (c :: a)) :
    SpanNoMatch tryM a := by
  intro rest k hk
  have := h rest (k + 1) (by simpa using Nat.succ_lt_succ hk)
  simpa using this

theorem scanRun_append_span {π : Type} (tryM : List Char → Option (π × List Char))
    (repl : π → List Char × List String) :
    ∀ (a b : List Char), SpanNoMatch tryM a →
    scanRun tryM repl (a ++ b)
      = (a ++ (scanRun tryM repl b).1, (scanRun tryM repl b).2) := by
  intro a
  induction a with
  | nil => intro b _; simp
  | cons c a ih =>
    intro b ha
    have h0 : tryM ((c :: a) ++ b) = none := by
      have := ha b 0 (by simp)
      simpa using this
    rw [List.cons_append] at h0 ⊢
    rw [scanRun_cons_nomatch tryM repl c (a ++ b) h0,
      ih b (spanNoMatch_shift tryM c a ha)]
    rfl

theorem scanRun_span_id {π : Type} (tryM : List Char → Option (π × List Char))
    (repl : π → List Char × List String) (cs : List Char)
    (h : SpanNoMatch tryM cs) : scanRun tryM repl cs = (cs, []) := by
  have h2 := scanRun_append_span tryM repl cs [] h
  rw [List.append_nil] at h2
  rw [h2, scanRun_nil]
  simp

theorem matchLit_open_nonbrace (c : Char) (cs : List Char) (h : ¬ c = '{') :
    matchLit openBraces (c :: cs) = none := by
  have h' : ¬ ('{' = c) := fun hx => h hx.symm
  simp [openBraces, matchLit, h']

theorem matchLit_open_nonbrace2 (c : Char) (cs : List Char) (h : ¬ c = '{') :
    matchLit openBraces ('{' :: c :: cs) = none := by
  have h' : ¬ ('{' = c) := fun hx => h hx.symm
  simp [openBraces, matchLit, h']

theorem trySimple_nonbrace (c : Char) (cs : List Char) (h : ¬ c = '{') :
    trySimple (c :: cs) = none := by
  unfold trySimple
  rw [matchLit_open_nonbrace c cs h]
  rfl

theorem tryPlural_nonbrace (c : Char) (cs : List Char) (h : ¬ c = '{') :
    tryPlural (c :: cs) = none := by
  unfold tryPlural
  rw [matchLit_open_nonbrace c cs h]
  rfl

theorem tryNum_nonbrace (c : Char) (cs : List Char) (h : ¬ c = '{') :
    tryNum (c :: cs) = none := by
  unfold tryNum
  rw [matchLit_open_nonbrace c cs h]
  rfl

theorem tryDate_nonbrace (c : Char) (cs : List Char) (h : ¬ c = '{') :
    tryDate (c :: cs) = none := by
  unfold tryDate
  rw [matchLit_open_nonbrace c cs h]
  rfl

theorem trySimple_nonbrace2 (c : Char) (cs : List Char) (h : ¬ c = '{') :
    trySimple ('{' :: c :: cs) = none := by
  unfold trySimple
  rw [matchLit_open_nonbrace2 c cs h]
  rfl

theorem tryPlural_nonbrace2 (c : Char) (cs : List Char) (h : ¬ c = '{') :
    tryPlural ('{' :: c :: cs) = none := by
  unfold tryPlural
  rw [matchLit_open_nonbrace2 c cs h]
  rfl

theorem tryNum_nonbrace2 (c : Char) (cs : List Char) (h : ¬ c = '{') :
    tryNum ('{' :: c :: cs) = none := by
  unfold tryNum
  rw [matchLit_open_nonbrace2 c cs h]
  rfl

theorem tryDate_nonbrace2 (c : Char) (cs : List Char) (h : ¬ c = '{') :
    tryDate ('{' :: c :: cs) = none := by
  unfold tryDate
  rw [matchLit_open_nonbrace2 c cs h]
  rfl

theorem drop_head_mem (l : List Char) (j : Nat) (hj : j < l.length) :
    ∃ d t, l.drop j = d :: t ∧ d ∈ l := by
  cases hd : l.drop j with
  | nil =>
    have := List.drop_eq_nil_iff.mp hd
    omega
  | cons d t =>
    refine ⟨d, t, rfl, List.mem_of_mem_drop (l := l) (n := j) ?_⟩
    rw [hd]
    exact List.mem_cons_self d t

theorem spanNoMatch_nonbrace {π : Type} (tryM : List Char → Option (π × List Char))
    (hm : ∀ c cs, ¬ c = '{' → tryM (c :: cs) = none)
    (a : List Char) (ha : ∀ c ∈ a, ¬ c = '{') : SpanNoMatch tryM a := by
  intro rest k hk
  obtain ⟨d, t, hd, hdm⟩ := drop_head_mem a k hk
  rw [hd, List.cons_append]
  exact hm d _ (ha d hdm)

/-- Generic no-match span over a placeholder-shaped token
`'{' :: '{' :: d :: body`: position 0 is ruled out by `h0`, position 1
by the second-character test, and every later position starts at a
non-brace character. -/
theorem spanNoMatch_token {π : Type} (tryM : List Char → Option (π × List Char))
    (hnb : ∀ c cs, ¬ c = '{' → tryM (c :: cs) = none)
    (hnb2 : ∀ c cs, ¬ c = '{' → tryM ('{' :: c :: cs) = none)
    (d : Char) (body : List Char) (hd : ¬ d = '{')
    (hbody : ∀ c ∈ body, ¬ c = '{')
    (h0 : ∀ zs, tryM ('{' :: '{' :: ((d :: body) ++ zs)) = none) :
    SpanNoMatch tryM ('{' :: '{' :: d :: body) := by
  intro rest k hk
  rcases k with _ | k
  · simpa using h0 rest
  rcases k with _ | k
  · simp only [List.drop_succ_cons, List.drop_zero, List.cons_append]
    exact hnb2 d _ hd
  · simp only [List.drop_succ_cons]
    have hk' : k < (d :: body).length := by
      simp only [List.length_cons] at hk ⊢
      omega
    exact spanNoMatch_nonbrace tryM hnb (d :: body)
      (by
        intro c hc
        rcases List.mem_cons.mp hc with hx | hx
        · rw [hx]; exact hd
        · exact hbody c hx)
      rest k hk'

/-- Characters of a valid name are never braces, `|`, or `:`. -/
theorem nameTail_props (c : Char) (h : isNameTailChar c = true) :
    ¬ c = '{' ∧ ¬ c = '}' ∧ ¬ c = '|' ∧ ¬ c = ':' := by
  refine ⟨?_, ?_, ?_, ?_⟩ <;> intro he <;> subst he <;> revert h <;> decide

theorem nameStart_tail (c : Char) (h : isNameStartChar c = true) :
    isNameTailChar c = true := by
  simp [isNameTailChar, h]

theorem validParamName_data (name : String) (h : validParamName name = true) :
    ∃ c tl, name.data = c :: tl ∧ isNameStartChar c = true ∧
      ∀ x ∈ tl, isNameTailChar x = true := by
  unfold validParamName at h
  cases hd : name.data with
  | nil => rw [hd] at h; cases h
  | cons c tl =>
    rw [hd] at h
    rw [Bool.and_eq_true] at h
    exact ⟨c, tl, rfl, h.1, List.all_eq_true.mp h.2⟩

theorem validParamName_all_tail (name : String) (h : validParamName name = true) :
    ∀ x ∈ name.data, isNameTailChar x = true := by
  obtain ⟨c, tl, hd, hs, ht⟩ := validParamName_data name h
  rw [hd]
  intro x hx
  rcases List.mem_cons.mp hx with hx | hx
  · rw [hx]; exact nameStart_tail c hs
  · exact ht x hx

/-- A tag `w ++ [':']` made of name characters never matches a valid
name followed by a closing brace — the `:` has no counterpart. -/
theorem matchLit_tag_name_none :
    ∀ (w nm : List Char), (∀ c ∈ w, isNameTailChar c = true) →
    (∀ c ∈ nm, isNameTailChar c = true) → ∀ zs,
    matchLit (w ++ [':']) (nm ++ '}' :: zs) = none := by
  intro w
  induction w with
  | nil =>
    intro nm hw hnm zs
    cases nm with
    | nil => simp [matchLit]
    | cons c nm =>
      have := (nameTail_props c (hnm c (List.mem_cons_self c nm))).2.2.2
      have h' : ¬ (':' = c) := fun hx => this hx.symm
      simp [matchLit, h']
  | cons a w ih =>
    intro nm hw hnm zs
    cases nm with
    | nil =>
      have ha : isNameTailChar a = true := hw a (List.mem_cons_self a w)
      have : ¬ a = '}' := (nameTail_props a ha).2.1
      simp [matchLit, this]
    | cons c nm =>
      by_cases hac : a = c
      · subst hac
        simp only [List.cons_append, matchLit, if_pos rfl]
        exact ih nm (fun x hx => hw x (List.mem_cons_of_mem a hx))
          (fun x hx => hnm x (List.mem_cons_of_mem a hx)) zs
      · simp [matchLit, hac]

theorem pluralTag_eq : pluralTag = "plural".data ++ [':'] := rfl

theorem numTag_eq : numTag = "num".data ++ [':'] := rfl

theorem dateTag_eq : dateTag = "date".data ++ [':'] := rfl

/-- The plural matcher rejects a bare `\x7b\x7bname\x7d...` token: the
`plural:` tag cannot match a name followed by `\x7d`. -/
theorem tryPlural_name_token_none (name : String) (hv : validParamName name = true)
    (zs : List Char) : tryPlural ('{' :: '{' :: (name.data ++ '}' :: zs)) = none := by
  unfold tryPlural
  rw [show matchLit openBraces ('{' :: '{' :: (name.data ++ '}' :: zs))
        = some (name.data ++ '}' :: zs) from matchLit_self openBraces _]
  simp only [Option.bind_eq_bind, Option.some_bind]
  rw [pluralTag_eq, matchLit_tag_name_none "plural".data name.data (by decide)
    (validParamName_all_tail name hv) zs]
  rfl

theorem tryNum_name_token_none (name : String) (hv : validParamName name = true)
    (zs : List Char) : tryNum ('{' :: '{' :: (name.data ++ '}' :: zs)) = none := by
  unfold tryNum
  rw [show matchLit openBraces ('{' :: '{' :: (name.data ++ '}' :: zs))
        = some (name.data ++ '}' :: zs) from matchLit_self openBraces _]
  simp only [Option.bind_eq_bind, Option.some_bind]
  rw [numTag_eq, matchLit_tag_name_none "num".data name.data (by decide)
    (validParamName_all_tail name hv) zs]
  rfl

theorem tryDate_name_token_none (name : String) (hv : validParamName name = true)
    (zs : List Char) : tryDate ('{' :: '{' :: (name.data ++ '}' :: zs)) = none := by
  unfold tryDate
  rw [show matchLit openBraces ('{' :: '{' :: (name.data ++ '}' :: zs))
        = some (name.data ++ '}' :: zs) from matchLit_self openBraces _]
  simp only [Option.bind_eq_bind, Option.some_bind]
  rw [dateTag_eq, matchLit_tag_name_none "date".data name.data (by decide)
    (validParamName_all_tail name hv) zs]
  rfl

/-- A simple token is a no-match span for any matcher that fails on it
at position 0 and never fires off an opening brace. -/
theorem spanNoMatch_simpleToken_tagged {π : Type}
    (tryM : List Char → Option (π × List Char))
    (hnb : ∀ c cs, ¬ c = '{' → tryM (c :: cs) = none)
    (hnb2 : ∀ c cs, ¬ c = '{' → tryM ('{' :: c :: cs) = none)
    (name : String) (hv : validParamName name = true)
    (h0 : ∀ zs, tryM ('{' :: '{' :: (name.data ++ '}' :: zs)) = none) :
    SpanNoMatch tryM (simpleToken name) := by
  obtain ⟨c, tl, hd, hs, ht⟩ := validParamName_data name hv
  have htok : simpleToken name = '{' :: '{' :: c :: (tl ++ ['}', '}']) := by
    simp [simpleToken, openBraces, closeBraces, hd]
  rw [htok]
  apply spanNoMatch_token tryM hnb hnb2 c (tl ++ ['}', '}'])
  · exact (nameTail_props c (nameStart_tail c hs)).1
  · intro x hx
    rcases List.mem_append.mp hx with hx | hx
    · exact (nameTail_props x (ht x hx)).1
    · have hxe : x = '}' := by simpa using hx
      rw [hxe]; decide
  · intro zs
    have he : (c :: (tl ++ ['}', '}'])) ++ zs = name.data ++ '}' :: '}' :: zs := by
      simp [hd]
    rw [he]
    exact h0 ('}' :: zs)

theorem spanNoMatch_simpleToken_plural (name : String)
    (hv : validParamName name = true) : SpanNoMatch tryPlural (simpleToken name) :=
  spanNoMatch_simpleToken_tagged tryPlural tryPlural_nonbrace tryPlural_nonbrace2
    name hv (tryPlural_name_token_none name hv)

theorem spanNoMatch_simpleToken_num (name : String)
    (hv : validParamName name = true) : SpanNoMatch tryNum (simpleToken name) :=
  spanNoMatch_simpleToken_tagged tryNum tryNum_nonbrace tryNum_nonbrace2
    name hv (tryNum_name_token_none name hv)

theorem spanNoMatch_simpleToken_date (name : String)
    (hv : validParamName name = true) : SpanNoMatch tryDate (simpleToken name) :=
  spanNoMatch_simpleToken_tagged tryDate tryDate_nonbrace tryDate_nonbrace2
    name hv (tryDate_name_token_none name hv)

theorem spanNoMatch_braceFree {π : Type} (tryM : List Char → Option (π × List Char))
    (hnb : ∀ c cs, ¬ c = '{' → tryM (c :: cs) = none)
    (s : String) (h : braceFree s = true) : SpanNoMatch tryM s.data := by
  apply spanNoMatch_nonbrace tryM hnb
  intro c hc
  unfold braceFree at h
  have h2 := List.all_eq_true.mp h c hc
  intro he
  rw [he] at h2
  revert h2
  decide

/-- The simple matcher succeeds on a valid token, consuming exactly it. -/
theorem trySimple_token (name : String) (rest : List Char)
    (hv : validParamName name = true) :
    trySimple (simpleToken name ++ rest) = some (name, rest) := by
  obtain ⟨c, tl, hd, hs, ht⟩ := validParamName_data name hv
  have h1 : simpleToken name ++ rest = openBraces ++ (c :: (tl ++ '}' :: '}' :: rest)) := by
    simp [simpleToken, openBraces, closeBraces, hd]
  unfold trySimple
  rw [h1, matchLit_self]
  simp only [Option.bind_eq_bind, Option.some_bind]
  simp only [takeName]
  rw [if_pos hs]
  have h2 := takeWhile_append_cons tl '}' ('}' :: rest) ht (by decide)
  rw [h2.1, h2.2]
  simp only [Option.some_bind]
  rw [show matchLit closeBraces ('}' :: '}' :: rest) = some rest from
    matchLit_self closeBraces rest]
  simp only [Option.some_bind]
  rw [show (c :: tl) = name.data from hd.symm, asString_data]

theorem contains_append_right (sub a b : List Char)
    (h : containsSubList sub b = true) : containsSubList sub (a ++ b) = true := by
  induction a with
  | nil => simpa
  | cons c a ih => simp [containsSubList, ih]

theorem matchLit_head_ne (p c : Char) (ps cs : List Char) (h : ¬ p = c) :
    matchLit (p :: ps) (c :: cs) = none := by
  simp only [matchLit, if_neg h]

/-- The plural matcher fails when the character after `\x7b\x7b` is not
`p`. -/
theorem tryPlural_tag_ne (d : Char) (zs : List Char) (h : ¬ 'p' = d) :
    tryPlural ('{' :: '{' :: d :: zs) = none := by
  unfold tryPlural
  rw [show matchLit openBraces ('{' :: '{' :: d :: zs) = some (d :: zs) from
    matchLit_self openBraces (d :: zs)]
  simp only [Option.bind_eq_bind, Option.some_bind]
  rw [show pluralTag = 'p' :: "lural:".data from rfl, matchLit_head_ne _ _ _ _ h]
  rfl

theorem tryNum_tag_ne (d : Char) (zs : List Char) (h : ¬ 'n' = d) :
    tryNum ('{' :: '{' :: d :: zs) = none := by
  unfold tryNum
  rw [show matchLit openBraces ('{' :: '{' :: d :: zs) = some (d :: zs) from
    matchLit_self openBraces (d :: zs)]
  simp only [Option.bind_eq_bind, Option.some_bind]
  rw [show numTag = 'n' :: "um:".data from rfl, matchLit_head_ne _ _ _ _ h]
  rfl

theorem tryDate_tag_ne (d : Char) (zs : List Char) (h : ¬ 'd' = d) :
    tryDate ('{' :: '{' :: d :: zs) = none := by
  unfold tryDate
  rw [show matchLit openBraces ('{' :: '{' :: d :: zs) = some (d :: zs) from
    matchLit_self openBraces (d :: zs)]
  simp only [Option.bind_eq_bind, Option.some_bind]
  rw [show dateTag = 'd' :: "ate:".data from rfl, matchLit_head_ne _ _ _ _ h]
  rfl

theorem pluralTag_chars : pluralTag = ['p', 'l', 'u', 'r', 'a', 'l', ':'] := rfl

theorem numTag_chars : numTag = ['n', 'u', 'm', ':'] := rfl

theorem dateTag_chars : dateTag = ['d', 'a', 't', 'e', ':'] := rfl

/-- The simple matcher fails on a tagged token: the name group stops at
the `:`, which is not a closing brace. -/
theorem trySimple_tag_none (c : Char) (tl zs : List Char)
    (hc : isNameStartChar c = true) (htl : ∀ x ∈ tl, isNameTailChar x = true) :
    trySimple ('{' :: '{' :: c :: (tl ++ ':' :: zs)) = none := by
  unfold trySimple
  rw [show matchLit openBraces ('{' :: '{' :: c :: (tl ++ ':' :: zs))
        = some (c :: (tl ++ ':' :: zs)) from matchLit_self openBraces _]
  simp only [Option.bind_eq_bind, Option.some_bind]
  simp only [takeName]
  rw [if_pos hc]
  have h2 := takeWhile_append_cons tl ':' zs htl (by decide)
  rw [h2.1, h2.2]
  simp only [Option.some_bind]
  rw [show closeBraces = '}' :: ['}'] from rfl, matchLit_head_ne _ _ _ _ (by decide)]
  rfl

theorem nonbrace_cons (d : Char) (l : List Char) (hd : ¬ d = '{')
    (hl : ∀ c ∈ l, ¬ c = '{') : ∀ c ∈ d :: l, ¬ c = '{' := by
  intro c hc
  rcases List.mem_cons.mp hc with h | h
  · rw [h]; exact hd
  · exact hl c h

theorem nonbrace_append (l1 l2 : List Char) (h1 : ∀ c ∈ l1, ¬ c = '{')
    (h2 : ∀ c ∈ l2, ¬ c = '{') : ∀ c ∈ l1 ++ l2, ¬ c = '{' := by
  intro c hc
  rcases List.mem_append.mp hc with h | h
  · exact h1 c h
  · exact h2 c h

theorem nonbrace_name (name : String) (hv : validParamName name = true) :
    ∀ c ∈ name.data, ¬ c = '{' := fun c hc =>
  (nameTail_props c (validParamName_all_tail name hv c hc)).1

theorem nonbrace_braceFree (s : String) (h : braceFree s = true) :
    ∀ c ∈ s.data, ¬ c = '{' := by
  intro c hc
  unfold braceFree at h
  have h2 := List.all_eq_true.mp h c hc
  intro he
  rw [he] at h2
  revert h2
  decide

/-- The strict-mode substitution `<missing:NAME>` is inert for every
matcher blind to non-brace heads. -/
theorem spanNoMatch_missingText {π : Type} (tryM : List Char → Option (π × List Char))
    (hnb : ∀ c cs, ¬ c = '{' → tryM (c :: cs) = none)
    (name : String) (hv : validParamName name = true) :
    SpanNoMatch tryM (missingText name) := by
  apply spanNoMatch_nonbrace tryM hnb
  show ∀ c ∈ '<' :: ("missing:".data ++ (name.data ++ ['>'])), ¬ c = '{'
  exact nonbrace_cons '<' _ (by decide)
    (nonbrace_append _ _ (by decide)
      (nonbrace_append _ _ (nonbrace_name name hv) (by decide)))

/-- A `num` token is a no-match span for any matcher that fails on it
at position 0 and never fires off an opening brace. -/
theorem spanNoMatch_numToken {π : Type} (tryM : List Char → Option (π × List Char))
    (hnb : ∀ c cs, ¬ c = '{' → tryM (c :: cs) = none)
    (hnb2 : ∀ c cs, ¬ c = '{' → tryM ('{' :: c :: cs) = none)
    (name : String) (hv : validParamName name = true)
    (h0 : ∀ zs, tryM ('{' :: '{' :: 'n' :: 'u' :: 'm' :: ':' ::
        (name.data ++ '}' :: '}' :: zs)) = none) :
    SpanNoMatch tryM (numToken name) := by
  rw [show numToken name
      = '{' :: '{' :: 'n' :: ('u' :: 'm' :: ':' :: (name.data ++ ['}', '}'])) from rfl]
  apply spanNoMatch_token tryM hnb hnb2 'n' _ (by decide)
  · exact nonbrace_cons 'u' _ (by decide) (nonbrace_cons 'm' _ (by decide)
      (nonbrace_cons ':' _ (by decide)
        (nonbrace_append _ _ (nonbrace_name name hv) (by decide))))
  · intro zs
    rw [show ('n' :: ('u' :: 'm' :: ':' :: (name.data ++ ['}', '}']))) ++ zs
        = 'n' :: 'u' :: 'm' :: ':' :: (name.data ++ '}' :: '}' :: zs) by simp]
    exact h0 zs

/-- A `date` token is a no-match span under the same conditions. -/
theorem spanNoMatch_dateToken {π : Type} (tryM : List Char → Option (π × List Char))
    (hnb : ∀ c cs, ¬ c = '{' → tryM (c :: cs) = none)
    (hnb2 : ∀ c cs, ¬ c = '{' → tryM ('{' :: c :: cs) = none)
    (name : String) (hv : validParamName name = true)
    (h0 : ∀ zs, tryM ('{' :: '{' :: 'd' :: 'a' :: 't' :: 'e' :: ':' ::
        (name.data ++ '}' :: '}' :: zs)) = none) :
    SpanNoMatch tryM (dateToken name) := by
  rw [show dateToken name
      = '{' :: '{' :: 'd' :: ('a' :: 't' :: 'e' :: ':' :: (name.data ++ ['}', '}'])) from rfl]
  apply spanNoMatch_token tryM hnb hnb2 'd' _ (by decide)
  · exact nonbrace_cons 'a' _ (by decide) (nonbrace_cons 't' _ (by decide)
      (nonbrace_cons 'e' _ (by decide) (nonbrace_cons ':' _ (by decide)
        (nonbrace_append _ _ (nonbrace_name name hv) (by decide)))))
  · intro zs
    rw [show ('d' :: ('a' :: 't' :: 'e' :: ':' :: (name.data ++ ['}', '}']))) ++ zs
        = 'd' :: 'a' :: 't' :: 'e' :: ':' :: (name.data ++ '}' :: '}' :: zs) by simp]
    exact h0 zs

/-- A plural token with brace-free branches is a no-match span under
the same conditions. -/
theorem spanNoMatch_pluralToken {π : Type} (tryM : List Char → Option (π × List Char))
    (hnb : ∀ c cs, ¬ c = '{' → tryM (c :: cs) = none)
    (hnb2 : ∀ c cs, ¬ c = '{' → tryM ('{' :: c :: cs) = none)
    (n a b : String) (hv : validParamName n = true)
    (hba : braceFree a = true) (hbb : braceFree b = true)
    (h0 : ∀ zs, tryM ('{' :: '{' :: 'p' :: 'l' :: 'u' :: 'r' :: 'a' :: 'l' :: ':' ::
        (n.data ++ '|' :: (a.data ++ '|' :: (b.data ++ '}' :: '}' :: zs)))) = none) :
    SpanNoMatch tryM (pluralToken n a b) := by
  have hsh : pluralToken n a b
      = '{' :: '{' :: 'p' :: ('l' :: 'u' :: 'r' :: 'a' :: 'l' :: ':' ::
          (n.data ++ '|' :: (a.data ++ '|' :: (b.data ++ ['}', '}'])))) := by
    simp [pluralToken, openBraces, closeBraces, pluralTag_chars]
  rw [hsh]
  apply spanNoMatch_token tryM hnb hnb2 'p' _ (by decide)
  · exact nonbrace_cons 'l' _ (by decide) (nonbrace_cons 'u' _ (by decide)
      (nonbrace_cons 'r' _ (by decide) (nonbrace_cons 'a' _ (by decide)
        (nonbrace_cons 'l' _ (by decide) (nonbrace_cons ':' _ (by decide)
          (nonbrace_append _ _ (nonbrace_name n hv)
            (nonbrace_cons '|' _ (by decide)
              (nonbrace_append _ _ (nonbrace_braceFree a hba)
                (nonbrace_cons '|' _ (by decide)
                  (nonbrace_append _ _ (nonbrace_braceFree b hbb) (by decide)))))))))))
  · intro zs
    rw [show ('p' :: ('l' :: 'u' :: 'r' :: 'a' :: 'l' :: ':' ::
          (n.data ++ '|' :: (a.data ++ '|' :: (b.data ++ ['}', '}']))))) ++ zs
        = 'p' :: 'l' :: 'u' :: 'r' :: 'a' :: 'l' :: ':' ::
          (n.data ++ '|' :: (a.data ++ '|' :: (b.data ++ '}' :: '}' :: zs))) by simp]
    exact h0 zs

/-- The number matcher succeeds on a valid `num` token. -/
theorem tryNum_token (name : String) (rest : List Char)
    (hv : validParamName name = true) :
    tryNum (numToken name ++ rest) = some (name, rest) := by
  obtain ⟨c, tl, hd, hs, ht⟩ := validParamName_data name hv
  have h1 : numToken name ++ rest
      = openBraces ++ (numTag ++ (c :: (tl ++ '}' :: '}' :: rest))) := by
    simp [numToken, closeBraces, hd]
  unfold tryNum
  rw [h1, matchLit_self]
  simp only [Option.bind_eq_bind, Option.some_bind]
  rw [matchLit_self]
  simp only [Option.some_bind]
  simp only [takeName]
  rw [if_pos hs]
  have h2 := takeWhile_append_cons tl '}' ('}' :: rest) ht (by decide)
  rw [h2.1, h2.2]
  simp only [Option.some_bind]
  rw [show matchLit closeBraces ('}' :: '}' :: rest) = some rest from
    matchLit_self closeBraces rest]
  simp only [Option.some_bind]
  rw [show (c :: tl) = name.data from hd.symm, asString_data]

/-- The date matcher succeeds on a valid `date` token. -/
theorem tryDate_token (name : String) (rest : List Char)
    (hv : validParamName name = true) :
    tryDate (dateToken name ++ rest) = some (name, rest) := by
  obtain ⟨c, tl, hd, hs, ht⟩ := validParamName_data name hv
  have h1 : dateToken name ++ rest
      = openBraces ++ (dateTag ++ (c :: (tl ++ '}' :: '}' :: rest))) := by
    simp [dateToken, closeBraces, hd]
  unfold tryDate
  rw [h1, matchLit_self]
  simp only [Option.bind_eq_bind, Option.some_bind]
  rw [matchLit_self]
  simp only [Option.some_bind]
  simp only [takeName]
  rw [if_pos hs]
  have h2 := takeWhile_append_cons tl '}' ('}' :: rest) ht (by decide)
  rw [h2.1, h2.2]
  simp only [Option.some_bind]
  rw [show matchLit closeBraces ('}' :: '}' :: rest) = some rest from
    matchLit_self closeBraces rest]
  simp only [Option.some_bind]
  rw [show (c :: tl) = name.data from hd.symm, asString_data]

/-- The plural matcher succeeds on a valid plural token: the branch
classes exclude the separators that follow them, so the greedy reads
recover exactly the two branches. -/
theorem tryPlural_token (n a b : String) (rest : List Char)
    (hv : validParamName n = true)
    (ha : a.data.all isBranchAChar = true) (hb : b.data.all isBranchBChar = true) :
    tryPlural (pluralToken n a b ++ rest) = some ((n, a, b), rest) := by
  obtain ⟨c, tl, hd, hs, ht⟩ := validParamName_data n hv
  have ha' := List.all_eq_true.mp ha
  have hb' := List.all_eq_true.mp hb
  have h1 : pluralToken n a b ++ rest
      = openBraces ++ (pluralTag ++ (c :: (tl ++ '|' ::
          (a.data ++ '|' :: (b.data ++ '}' :: '}' :: rest))))) := by
    simp [pluralToken, closeBraces, hd]
  unfold tryPlural
  rw [h1, matchLit_self]
  simp only [Option.bind_eq_bind, Option.some_bind]
  rw [matchLit_self]
  simp only [Option.some_bind]
  simp only [takeName]
  rw [if_pos hs]
  have h2 := takeWhile_append_cons tl '|'
    (a.data ++ '|' :: (b.data ++ '}' :: '}' :: rest)) ht (by decide)
  rw [h2.1, h2.2]
  simp only [Option.some_bind]
  rw [show matchLit ['|'] ('|' :: (a.data ++ '|' :: (b.data ++ '}' :: '}' :: rest)))
      = some (a.data ++ '|' :: (b.data ++ '}' :: '}' :: rest)) from matchLit_self ['|'] _]
  simp only [Option.some_bind]
  have h3 := takeWhile_append_cons a.data '|' (b.data ++ '}' :: '}' :: rest) ha' (by decide)
  rw [h3.1, h3.2]
  rw [show matchLit ['|'] ('|' :: (b.data ++ '}' :: '}' :: rest))
      = some (b.data ++ '}' :: '}' :: rest) from matchLit_self ['|'] _]
  simp only [Option.some_bind]
  have h4 := takeWhile_append_cons b.data '}' ('}' :: rest) hb' (by decide)
  rw [h4.1, h4.2]
  rw [show matchLit closeBraces ('}' :: '}' :: rest) = some rest from
    matchLit_self closeBraces rest]
  simp only [Option.some_bind]
  rw [show (c :: tl) = n.data from hd.symm]
  simp only [asString_data]

/-- `scanRun` at a successful match, for any non-empty input. -/
theorem scanRun_match_ne {π : Type} (tryM : List Char → Option (π × List Char))
    (repl : π → List Char × List String) (hc : Consumes tryM) (cs : List Char)
    (pr : π × List Char) (hne : ¬ cs = []) (h : tryM cs = some pr) :
    scanRun tryM repl cs
      = ((repl pr.1).1 ++ (scanRun tryM repl pr.2).1,
          (repl pr.1).2 ++ (scanRun tryM repl pr.2).2) := by
  cases cs with
  | nil => exact absurd rfl hne
  | cons c cs => exact scanRun_cons_match tryM repl hc c cs pr h

theorem map_flatten_cons {α β : Type} (f : α → List β) (s : α) (r : List α) :
    ((s :: r).map f).flatten = f s ++ (r.map f).flatten := rfl

/-- Output and issue of the plural replacement, as the per-segment
functions state them. -/
theorem pluralRepl_issues (strict : Bool) (params : SMap GoValue) (n a b : String) :
    (pluralRepl strict params (n, a, b)).2 = segIssueP params (.phPlural n a b) := by
  cases h : smLookup params n with
  | none => simp [pluralRepl, segIssueP, replaceMissing, h]
  | some v =>
    cases h2 : isPluralOne v with
    | none => simp [pluralRepl, segIssueP, h, h2]
    | some b1 => cases b1 <;> simp [pluralRepl, segIssueP, h, h2]

theorem pluralRepl_text (lang : String) (strict : Bool) (params : SMap GoValue)
    (n a b : String) :
    (pluralRepl strict params (n, a, b)).1
      = renderSegSpec lang strict params (.phPlural n a b) := by
  cases h : smLookup params n with
  | none => simp [pluralRepl, renderSegSpec, replaceMissing, h]
  | some v =>
    cases h2 : isPluralOne v with
    | none => simp [pluralRepl, renderSegSpec, h, h2]
    | some b1 => cases b1 <;> simp [pluralRepl, renderSegSpec, h, h2]

theorem numRepl_issues (lang : String) (strict : Bool) (params : SMap GoValue)
    (n : String) :
    (numRepl lang strict params n).2 = segIssueN lang params (.phNum n) := by
  cases h : smLookup params n with
  | none => simp [numRepl, segIssueN, replaceMissing, h]
  | some v => cases h2 : formatNumberByLang lang v <;> simp [numRepl, segIssueN, h, h2]

theorem numRepl_text (lang : String) (strict : Bool) (params : SMap GoValue)
    (n : String) :
    (numRepl lang strict params n).1 = renderSegSpec lang strict params (.phNum n) := by
  cases h : smLookup params n with
  | none => simp [numRepl, renderSegSpec, replaceMissing, h]
  | some v =>
    cases h2 : formatNumberByLang lang v <;> simp [numRepl, renderSegSpec, h, h2]

theorem dateRepl_issues (lang : String) (strict : Bool) (params : SMap GoValue)
    (n : String) :
    (dateRepl lang strict params n).2 = segIssueD lang params (.phDate n) := by
  cases h : smLookup params n with
  | none => simp [dateRepl, segIssueD, replaceMissing, h]
  | some v => cases h2 : formatDateByLang lang v <;> simp [dateRepl, segIssueD, h, h2]

theorem dateRepl_text (lang : String) (strict : Bool) (params : SMap GoValue)
    (n : String) :
    (dateRepl lang strict params n).1 = renderSegSpec lang strict params (.phDate n) := by
  cases h : smLookup params n with
  | none => simp [dateRepl, renderSegSpec, replaceMissing, h]
  | some v =>
    cases h2 : formatDateByLang lang v <;> simp [dateRepl, renderSegSpec, h, h2]

theorem simpleRepl_issues (strict : Bool) (params : SMap GoValue) (n : String) :
    (simpleRepl strict params n).2 = segIssueS params (.ph n) := by
  cases h : smLookup params n <;> simp [simpleRepl, segIssueS, replaceMissing, h]

theorem simpleRepl_text (lang : String) (strict : Bool) (params : SMap GoValue)
    (n : String) :
    (simpleRepl strict params n).1 = renderSegSpec lang strict params (.ph n) := by
  cases h : smLookup params n <;> simp [simpleRepl, renderSegSpec, replaceMissing, h]

/-- The plural replacement's output is inert for every later matcher:
the missing/invalid cases keep the (spanned) token or substitute the
brace-free `<missing:NAME>`, and a selected branch is brace-free. -/
theorem spanNoMatch_pluralRepl {π : Type} (tryM : List Char → Option (π × List Char))
    (hnb : ∀ c cs, ¬ c = '{' → tryM (c :: cs) = none)
    (strict : Bool) (params : SMap GoValue) (n a b : String)
    (hv : validParamName n = true) (hba : braceFree a = true) (hbb : braceFree b = true)
    (htok : SpanNoMatch tryM (pluralToken n a b)) :
    SpanNoMatch tryM (pluralRepl strict params (n, a, b)).1 := by
  unfold pluralRepl
  dsimp only
  cases h : smLookup params n with
  | none =>
    dsimp only [replaceMissing]
    cases strict with
    | true =>
      rw [if_pos rfl]
      exact spanNoMatch_missingText tryM hnb n hv
    | false =>
      rw [if_neg (by decide)]
      exact htok
  | some v =>
    dsimp only
    cases h2 : isPluralOne v with
    | none => dsimp only; exact htok
    | some b1 =>
      cases b1 with
      | true => dsimp only; exact spanNoMatch_braceFree tryM hnb a hba
      | false => dsimp only; exact spanNoMatch_braceFree tryM hnb b hbb

/-- The number replacement's output is inert for every later matcher,
given that the formatted value is brace-free. -/
theorem spanNoMatch_numRepl {π : Type} (tryM : List Char → Option (π × List Char))
    (hnb : ∀ c cs, ¬ c = '{' → tryM (c :: cs) = none)
    (lang : String) (strict : Bool) (params : SMap GoValue) (n : String)
    (hv : validParamName n = true)
    (htok : SpanNoMatch tryM (numToken n))
    (hfmt : ∀ v, smLookup params n = some v → ∀ s, formatNumberByLang lang v = some s →
      braceFree s = true) :
    SpanNoMatch tryM (numRepl lang strict params n).1 := by
  unfold numRepl
  dsimp only
  cases h : smLookup params n with
  | none =>
    dsimp only [replaceMissing]
    cases strict with
    | true =>
      rw [if_pos rfl]
      exact spanNoMatch_missingText tryM hnb n hv
    | false =>
      rw [if_neg (by decide)]
      exact htok
  | some v =>
    dsimp only
    cases h2 : formatNumberByLang lang v with
    | none => dsimp only; exact htok
    | some s => dsimp only; exact spanNoMatch_braceFree tryM hnb s (hfmt v h s h2)

/-- The date replacement's output is inert for the simple matcher,
given that the formatted value is brace-free. -/
theorem spanNoMatch_dateRepl {π : Type} (tryM : List Char → Option (π × List Char))
    (hnb : ∀ c cs, ¬ c = '{' → tryM (c :: cs) = none)
    (lang : String) (strict : Bool) (params : SMap GoValue) (n : String)
    (hv : validParamName n = true)
    (htok : SpanNoMatch tryM (dateToken n))
    (hfmt : ∀ v, smLookup params n = some v → ∀ s, formatDateByLang lang v = some s →
      braceFree s = true) :
    SpanNoMatch tryM (dateRepl lang strict params n).1 := by
  unfold dateRepl
  dsimp only
  cases h : smLookup params n with
  | none =>
    dsimp only [replaceMissing]
    cases strict with
    | true =>
      rw [if_pos rfl]
      exact spanNoMatch_missingText tryM hnb n hv
    | false =>
      rw [if_neg (by decide)]
      exact htok
  | some v =>
    dsimp only
    cases h2 : formatDateByLang lang v with
    | none => dsimp only; exact htok
    | some s => dsimp only; exact spanNoMatch_braceFree tryM hnb s (hfmt v h s h2)

/-- Pass 1 (plural) over a well-formed template: plural tokens are
replaced, everything else is untouched, and exactly the plural issues
are recorded in template order. -/
theorem pass1_plural (strict : Bool) (params : SMap GoValue) :
    ∀ segs : List TSeg, (∀ s ∈ segs, tsegOk s = true) →
    scanRun tryPlural (pluralRepl strict params) (buildTpl segs)
      = ((segs.map (segText1 strict params)).flatten,
         (segs.map (segIssueP params)).flatten) := by
  intro segs
  induction segs with
  | nil => intro _; rfl
  | cons s r ih =>
    intro hok
    have hr := ih fun x hx => hok x (List.mem_cons_of_mem s hx)
    have hs0 : tsegOk s = true := hok s (List.mem_cons_self s r)
    cases s with
    | lit str =>
      show scanRun tryPlural (pluralRepl strict params) (str.data ++ buildTpl r) = _
      rw [scanRun_append_span tryPlural _ str.data (buildTpl r)
        (spanNoMatch_braceFree tryPlural tryPlural_nonbrace str hs0), hr,
        map_flatten_cons, map_flatten_cons]
      rfl
    | ph n =>
      show scanRun tryPlural (pluralRepl strict params) (simpleToken n ++ buildTpl r) = _
      rw [scanRun_append_span tryPlural _ _ _ (spanNoMatch_simpleToken_plural n hs0),
        hr, map_flatten_cons, map_flatten_cons]
      rfl
    | phNum n =>
      show scanRun tryPlural (pluralRepl strict params) (numToken n ++ buildTpl r) = _
      rw [scanRun_append_span tryPlural _ _ _
        (spanNoMatch_numToken tryPlural tryPlural_nonbrace tryPlural_nonbrace2 n hs0
          (fun zs => tryPlural_tag_ne 'n' _ (by decide))),
        hr, map_flatten_cons, map_flatten_cons]
      rfl
    | phDate n =>
      show scanRun tryPlural (pluralRepl strict params) (dateToken n ++ buildTpl r) = _
      rw [scanRun_append_span tryPlural _ _ _
        (spanNoMatch_dateToken tryPlural tryPlural_nonbrace tryPlural_nonbrace2 n hs0
          (fun zs => tryPlural_tag_ne 'd' _ (by decide))),
        hr, map_flatten_cons, map_flatten_cons]
      rfl
    | phPlural n a b =>
      simp only [tsegOk, Bool.and_eq_true] at hs0
      obtain ⟨⟨⟨⟨hv, ha⟩, hb⟩, hba⟩, hbb⟩ := hs0
      show scanRun tryPlural (pluralRepl strict params) (pluralToken n a b ++ buildTpl r) = _
      rw [scanRun_match_ne tryPlural _ tryPlural_consumes _ ((n, a, b), buildTpl r)
        (by simp [pluralToken, openBraces])
        (tryPlural_token n a b (buildTpl r) hv ha hb)]
      dsimp only
      rw [hr, map_flatten_cons, map_flatten_cons, pluralRepl_issues]
      rfl

/-- Pass 2 (number) over the output of pass 1. -/
theorem pass2_num (lang : String) (strict : Bool) (params : SMap GoValue) :
    ∀ segs : List TSeg, (∀ s ∈ segs, tsegOk s = true) →
    scanRun tryNum (numRepl lang strict params)
        ((segs.map (segText1 strict params)).flatten)
      = ((segs.map (segText2 lang strict params)).flatten,
         (segs.map (segIssueN lang params)).flatten) := by
  intro segs
  induction segs with
  | nil => intro _; rfl
  | cons s r ih =>
    intro hok
    have hr := ih fun x hx => hok x (List.mem_cons_of_mem s hx)
    have hs0 : tsegOk s = true := hok s (List.mem_cons_self s r)
    rw [map_flatten_cons]
    cases s with
    | lit str =>
      dsimp only [segText1]
      rw [scanRun_append_span tryNum _ str.data _
        (spanNoMatch_braceFree tryNum tryNum_nonbrace str hs0), hr,
        map_flatten_cons, map_flatten_cons]
      rfl
    | ph n =>
      dsimp only [segText1]
      rw [scanRun_append_span tryNum _ _ _ (spanNoMatch_simpleToken_num n hs0),
        hr, map_flatten_cons, map_flatten_cons]
      rfl
    | phDate n =>
      dsimp only [segText1]
      rw [scanRun_append_span tryNum _ _ _
        (spanNoMatch_dateToken tryNum tryNum_nonbrace tryNum_nonbrace2 n hs0
          (fun zs => tryNum_tag_ne 'd' _ (by decide))),
        hr, map_flatten_cons, map_flatten_cons]
      rfl
    | phPlural n a b =>
      simp only [tsegOk, Bool.and_eq_true] at hs0
      obtain ⟨⟨⟨⟨hv, ha⟩, hb⟩, hba⟩, hbb⟩ := hs0
      dsimp only [segText1]
      rw [scanRun_append_span tryNum _ _ _
        (spanNoMatch_pluralRepl tryNum tryNum_nonbrace strict params n a b hv hba hbb
          (spanNoMatch_pluralToken tryNum tryNum_nonbrace tryNum_nonbrace2 n a b
            hv hba hbb (fun zs => tryNum_tag_ne 'p' _ (by decide)))),
        hr, map_flatten_cons, map_flatten_cons]
      rfl
    | phNum n =>
      dsimp only [segText1]
      rw [scanRun_match_ne tryNum _ tryNum_consumes _
        ((n : String), (r.map (segText1 strict params)).flatten)
        (by simp [numToken, openBraces])
        (tryNum_token n _ hs0)]
      dsimp only
      rw [hr, map_flatten_cons, map_flatten_cons, numRepl_issues]
      rfl

/-- Pass 3 (date) over the output of pass 2; formatted number outputs
are inert by the inert-parameter hypothesis. -/
theorem pass3_date (lang : String) (strict : Bool) (params : SMap GoValue)
    (hp : ∀ p ∈ params, inertParamValue lang p.2 = true) :
    ∀ segs : List TSeg, (∀ s ∈ segs, tsegOk s = true) →
    scanRun tryDate (dateRepl lang strict params)
        ((segs.map (segText2 lang strict params)).flatten)
      = ((segs.map (segText3 lang strict params)).flatten,
         (segs.map (segIssueD lang params)).flatten) := by
  have hfmtN : ∀ nm : String, ∀ v, smLookup params nm = some v →
      ∀ s1, formatNumberByLang lang v = some s1 → braceFree s1 = true := by
    intro nm v hlk s1 hf
    have hi := hp (nm, v) (smLookup_mem params nm v hlk)
    simp only [inertParamValue, hf, Bool.and_eq_true] at hi
    exact hi.1
  intro segs
  induction segs with
  | nil => intro _; rfl
  | cons s r ih =>
    intro hok
    have hr := ih fun x hx => hok x (List.mem_cons_of_mem s hx)
    have hs0 : tsegOk s = true := hok s (List.mem_cons_self s r)
    rw [map_flatten_cons]
    cases s with
    | lit str =>
      dsimp only [segText2]
      rw [scanRun_append_span tryDate _ str.data _
        (spanNoMatch_braceFree tryDate tryDate_nonbrace str hs0), hr,
        map_flatten_cons, map_flatten_cons]
      rfl
    | ph n =>
      dsimp only [segText2]
      rw [scanRun_append_span tryDate _ _ _ (spanNoMatch_simpleToken_date n hs0),
        hr, map_flatten_cons, map_flatten_cons]
      rfl
    | phNum n =>
      dsimp only [segText2]
      rw [scanRun_append_span tryDate _ _ _
        (spanNoMatch_numRepl tryDate tryDate_nonbrace lang strict params n hs0
          (spanNoMatch_numToken tryDate tryDate_nonbrace tryDate_nonbrace2 n hs0
            (fun zs => tryDate_tag_ne 'n' _ (by decide)))
          (hfmtN n)),
        hr, map_flatten_cons, map_flatten_cons]
      rfl
    | phPlural n a b =>
      simp only [tsegOk, Bool.and_eq_true] at hs0
      obtain ⟨⟨⟨⟨hv, ha⟩, hb⟩, hba⟩, hbb⟩ := hs0
      dsimp only [segText2]
      rw [scanRun_append_span tryDate _ _ _
        (spanNoMatch_pluralRepl tryDate tryDate_nonbrace strict params n a b hv hba hbb
          (spanNoMatch_pluralToken tryDate tryDate_nonbrace tryDate_nonbrace2 n a b
            hv hba hbb (fun zs => tryDate_tag_ne 'p' _ (by decide)))),
        hr, map_flatten_cons, map_flatten_cons]
      rfl
    | phDate n =>
      dsimp only [segText2]
      rw [scanRun_match_ne tryDate _ tryDate_consumes _
        ((n : String), (r.map (segText2 lang strict params)).flatten)
        (by simp [dateToken, openBraces])
        (tryDate_token n _ hs0)]
      dsimp only
      rw [hr, map_flatten_cons, map_flatten_cons, dateRepl_issues]
      rfl

/-- Pass 4 (simple) over the output of pass 3: the result is the
claim's per-segment rendering. -/
theorem pass4_simple (lang : String) (strict : Bool) (params : SMap GoValue)
    (hp : ∀ p ∈ params, inertParamValue lang p.2 = true) :
    ∀ segs : List TSeg, (∀ s ∈ segs, tsegOk s = true) →
    scanRun trySimple (simpleRepl strict params)
        ((segs.map (segText3 lang strict params)).flatten)
      = ((segs.map (renderSegSpec lang strict params)).flatten,
         (segs.map (segIssueS params)).flatten) := by
  have hfmtN : ∀ nm : String, ∀ v, smLookup params nm = some v →
      ∀ s1, formatNumberByLang lang v = some s1 → braceFree s1 = true := by
    intro nm v hlk s1 hf
    have hi := hp (nm, v) (smLookup_mem params nm v hlk)
    simp only [inertParamValue, hf, Bool.and_eq_true] at hi
    exact hi.1
  have hfmtD : ∀ nm : String, ∀ v, smLookup params nm = some v →
      ∀ s1, formatDateByLang lang v = some s1 → braceFree s1 = true := by
    intro nm v hlk s1 hf
    have hi := hp (nm, v) (smLookup_mem params nm v hlk)
    simp only [inertParamValue, hf, Bool.and_eq_true] at hi
    exact hi.2
  intro segs
  induction segs with
  | nil => intro _; rfl
  | cons s r ih =>
    intro hok
    have hr := ih fun x hx => hok x (List.mem_cons_of_mem s hx)
    have hs0 : tsegOk s = true := hok s (List.mem_cons_self s r)
    rw [map_flatten_cons]
    cases s with
    | lit str =>
      dsimp only [segText3]
      rw [scanRun_append_span trySimple _ str.data _
        (spanNoMatch_braceFree trySimple trySimple_nonbrace str hs0), hr,
        map_flatten_cons, map_flatten_cons]
      rfl
    | phNum n =>
      dsimp only [segText3]
      rw [scanRun_append_span trySimple _ _ _
        (spanNoMatch_numRepl trySimple trySimple_nonbrace lang strict params n hs0
          (spanNoMatch_numToken trySimple trySimple_nonbrace trySimple_nonbrace2 n hs0
            (fun zs => trySimple_tag_none 'n' ['u', 'm'] _ (by decide) (by decide)))
          (hfmtN n)),
        hr, map_flatten_cons, map_flatten_cons, numRepl_text lang]
      rfl
    | phDate n =>
      dsimp only [segText3]
      rw [scanRun_append_span trySimple _ _ _
        (spanNoMatch_dateRepl trySimple trySimple_nonbrace lang strict params n hs0
          (spanNoMatch_dateToken trySimple trySimple_nonbrace trySimple_nonbrace2 n hs0
            (fun zs => trySimple_tag_none 'd' ['a', 't', 'e'] _ (by decide) (by decide)))
          (hfmtD n)),
        hr, map_flatten_cons, map_flatten_cons, dateRepl_text lang]
      rfl
    | phPlural n a b =>
      simp only [tsegOk, Bool.and_eq_true] at hs0
      obtain ⟨⟨⟨⟨hv, ha⟩, hb⟩, hba⟩, hbb⟩ := hs0
      dsimp only [segText3]
      rw [scanRun_append_span trySimple _ _ _
        (spanNoMatch_pluralRepl trySimple trySimple_nonbrace strict params n a b
          hv hba hbb
          (spanNoMatch_pluralToken trySimple trySimple_nonbrace trySimple_nonbrace2
            n a b hv hba hbb
            (fun zs => trySimple_tag_none 'p' ['l', 'u', 'r', 'a', 'l'] _
              (by decide) (by decide)))),
        hr, map_flatten_cons, map_flatten_cons, pluralRepl_text lang]
      rfl
    | ph n =>
      dsimp only [segText3]
      rw [scanRun_match_ne trySimple _ trySimple_consumes _
        ((n : String), (r.map (segText3 lang strict params)).flatten)
        (by simp [simpleToken, openBraces])
        (trySimple_token n _ hs0)]
      dsimp only
      rw [hr, map_flatten_cons, map_flatten_cons, simpleRepl_text lang,
        simpleRepl_issues]

theorem contains_open_cons2 (Z rest : List Char) :
    containsSubList openBraces (('{' :: '{' :: Z) ++ rest) = true := by
  simp [containsSubList, hasPrefixList, openBraces]

/-- A template with no opening braces consists of literal segments only,
so the per-segment rendering is the identity and no issues arise. -/
theorem buildTpl_no_braces (lang : String) (strict : Bool) (params : SMap GoValue) :
    ∀ segs : List TSeg,
    containsSubList openBraces (buildTpl segs) = false →
    (segs.map (renderSegSpec lang strict params)).flatten = buildTpl segs
      ∧ (segs.map (segIssueP params)).flatten = []
      ∧ (segs.map (segIssueN lang params)).flatten = []
      ∧ (segs.map (segIssueD lang params)).flatten = []
      ∧ (segs.map (segIssueS params)).flatten = [] := by
  intro segs
  induction segs with
  | nil => intro _; exact ⟨rfl, rfl, rfl, rfl, rfl⟩
  | cons s r ih =>
    intro hct
    cases s with
    | lit str =>
      have hct' : containsSubList openBraces (buildTpl r) = false := by
        cases h : containsSubList openBraces (buildTpl r) with
        | false => rfl
        | true =>
          have := contains_append_right openBraces str.data (buildTpl r) h
          rw [show buildTpl (.lit str :: r) = str.data ++ buildTpl r from rfl, this]
            at hct
          cases hct
      obtain ⟨ht, hP, hN, hD, hS⟩ := ih hct'
      refine ⟨?_, ?_, ?_, ?_, ?_⟩ <;>
        rw [map_flatten_cons] <;>
        simp only [renderSegSpec, segIssueP, segIssueN, segIssueD, segIssueS,
          ht, hP, hN, hD, hS, List.nil_append, List.append_nil]
      rfl
    | ph n =>
      exfalso
      rw [show buildTpl (.ph n :: r) = simpleToken n ++ buildTpl r from rfl,
        show simpleToken n = '{' :: '{' :: (n.data ++ ['}', '}']) from rfl,
        contains_open_cons2] at hct
      cases hct
    | phNum n =>
      exfalso
      rw [show buildTpl (.phNum n :: r) = numToken n ++ buildTpl r from rfl,
        show numToken n
          = '{' :: '{' :: ('n' :: 'u' :: 'm' :: ':' :: (n.data ++ ['}', '}'])) from rfl,
        contains_open_cons2] at hct
      cases hct
    | phDate n =>
      exfalso
      rw [show buildTpl (.phDate n :: r) = dateToken n ++ buildTpl r from rfl,
        show dateToken n
          = '{' :: '{' :: ('d' :: 'a' :: 't' :: 'e' :: ':' :: (n.data ++ ['}', '}']))
          from rfl,
        contains_open_cons2] at hct
      cases hct
    | phPlural n a b =>
      exfalso
      have hsh : pluralToken n a b
          = '{' :: '{' :: ('p' :: 'l' :: 'u' :: 'r' :: 'a' :: 'l' :: ':' ::
              (n.data ++ '|' :: (a.data ++ '|' :: (b.data ++ ['}', '}'])))) := by
        simp [pluralToken, openBraces, closeBraces, pluralTag_chars]
      rw [show buildTpl (.phPlural n a b :: r) = pluralToken n a b ++ buildTpl r
          from rfl, hsh, contains_open_cons2] at hct
      cases hct

/-- Claim C8 (amended): for every template assembled from brace-free
literal runs and placeholders of the four classes (simple, `num:`,
`date:`, two-branch `plural:` with brace-free branches), every
language, mode and parameter map whose values format without braces
(always true of Go values), rendering is segmentwise: a placeholder
whose named parameter is absent becomes `<missing:NAME>` in strict mode
and stays textually in place otherwise, and the issue
`<class>_missing_param_<name>` is recorded — pass-grouped (plural,
number, date, simple), each group in template order.  A present
parameter is substituted as the code's formatter renders it — for a
simple placeholder verbatim, so its value may reintroduce a
placeholder substring into the output. -/
theorem c8_missing_param_policy_amended (lang : String) (strict : Bool)
    (params : SMap GoValue) (segs : List TSeg)
    (hok : ∀ s ∈ segs, tsegOk s = true)
    (hp : ∀ p ∈ params, inertParamValue lang p.2 = true) :
    renderTemplateCore lang strict (buildTpl segs).asString params
      = (((segs.map (renderSegSpec lang strict params)).flatten).asString,
         (segs.map (segIssueP params)).flatten
           ++ (segs.map (segIssueN lang params)).flatten
           ++ (segs.map (segIssueD lang params)).flatten
           ++ (segs.map (segIssueS params)).flatten) := by
  unfold renderTemplateCore
  rw [data_asString]
  cases hct : containsSubList openBraces (buildTpl segs) with
  | false =>
    obtain ⟨ht, hP, hN, hD, hS⟩ := buildTpl_no_braces lang strict params segs hct
    rw [ht, hP, hN, hD, hS]
    rfl
  | true =>
    have h1 := pass1_plural strict params segs hok
    have h2 := pass2_num lang strict params segs hok
    have h3 := pass3_date lang strict params hp segs hok
    have h4 := pass4_simple lang strict params hp segs hok
    simp only [Bool.not_true, Bool.false_eq_true, if_false, h1, h2, h3, h4,
      List.nil_append]

theorem c8_missing_param_policy_amended_witness :
    (∀ s ∈ [TSeg.lit "You have ", TSeg.phPlural "count" "one item" "many items",
        TSeg.lit ", ", TSeg.phNum "amount", TSeg.lit " at ", TSeg.phDate "when",
        TSeg.lit " for ", TSeg.ph "user"], tsegOk s = true) ∧
    (∀ p ∈ [(("count" : String), GoValue.int 2)], inertParamValue "en" p.2 = true) ∧
    renderTemplateCore "en" true
        (buildTpl [TSeg.lit "You have ", TSeg.phPlural "count" "one item" "many items",
          TSeg.lit ", ", TSeg.phNum "amount", TSeg.lit " at ", TSeg.phDate "when",
          TSeg.lit " for ", TSeg.ph "user"]).asString [("count", GoValue.int 2)]
      = ("You have many items, <missing:amount> at <missing:when> for <missing:user>",
         ["number_missing_param_amount", "date_missing_param_when",
          "simple_missing_param_user"]) := by
  refine ⟨by decide, by decide, ?_⟩
  rw [c8_missing_param_policy_amended "en" true [("count", GoValue.int 2)] _
    (by decide) (by decide)]
  rfl

end Msgcat
